import Mathlib

/-!
Verification of the block-stacking core of the pyweek-40 game (`src/game.py`).

The relevant parts of the Python program are shallowly embedded as pure Lean
functions.  Modelling conventions, used consistently below:

* Python `//` (floor division) is `Int.fdiv`.
* Python list indexing `l[i]` wraps one list length for negative indices and
  raises `IndexError` out of range; it is modelled by `pyget` / `pyset`,
  whose `none` result stands for a raised exception.
* A Python method that can raise an exception is modelled as returning
  `Option`, with `none` standing for the raised exception.
* Python object mutation is modelled by value passing: `City.add` and
  `City.remove` return the updated city and the updated block.  The stacks
  store block values; this is faithful for all operations modelled here,
  none of which compares object identities.
* `math.hypot(dx, dy) <= r` comparisons (both sides nonnegative) are modelled
  exactly by squared distances over `ℚ`: `dx^2 + dy^2 <= r^2`.  Floating-point
  rounding is idealised (exact rational arithmetic).
* Sprite data (`BlockSprite`, foundations, colours) is presentation-only and
  is dropped; the `x_center`/`y_center` values that `BlockType.__post_init__`
  derives from the sprite extents are carried as plain data fields.
-/

namespace PW

/-- Python floor division `//` on integers. -/
def pydiv (a b : Int) : Int := Int.fdiv a b

/-- Resolve a Python list index: negative indices wrap once by the length,
anything still out of range raises (`none`). -/
def pyidx (n : Nat) (i : Int) : Option Nat :=
  if 0 ≤ i then (if i < (n : Int) then some i.toNat else none)
  else (if 0 ≤ i + (n : Int) then some (i + (n : Int)).toNat else none)

/-- Python list read `l[i]`; `none` models a raised `IndexError`. -/
def pyget {α : Type} (l : List α) (i : Int) : Option α :=
  (pyidx l.length i).bind fun j => l[j]?

/-- Python list element assignment `l[i] = a`; `none` models a raised
`IndexError`. -/
def pyset {α : Type} (l : List α) (i : Int) (a : α) : Option (List α) :=
  (pyidx l.length i).map fun j => l.set j a

/-- One footprint part of a block type (source: `BlockPart`): the offsets, in
tiles, from the block's base coordinate.  The `sprites` field of the source is
presentation-only and dropped. -/
structure BlockPart where
  col : Int := 0
  row : Int := 0
  altitude : Int := 0
  deriving DecidableEq

/-- A block shape (source: `BlockType`): the sequence of tiles occupied.
`x_center`/`y_center` are the values `__post_init__` derives from the sprite
extents; they are carried here as data. -/
structure BlockType where
  footprint : List BlockPart
  x_center : Int := 0
  y_center : Int := 0
  deriving DecidableEq

/-- A placeable block instance (source: `Block`).  `col`/`row`/`altitude` are
`none` exactly when the block is not currently part of the city. -/
structure Block where
  x : Int
  y : Int
  col : Option Int
  row : Option Int
  altitude : Option Int
  blocktype : BlockType
  deriving DecidableEq

/-- A stack entry (source: `TileBlock` namedtuple): a block together with the
index into its blocktype's footprint of the part occupying this tile. -/
structure TileBlock where
  block : Block
  index : Nat
  deriving DecidableEq

/-- A city tile (source: `Tile`).  `blocks = none` means blocks cannot be
placed on this tile; the `foundation` field is presentation-only and
dropped. -/
structure Tile where
  blocks : Option (List TileBlock)
  deriving DecidableEq

/-- The 16×16 tile grid of the city; `none` entries are off-map cells. -/
abbrev Grid := List (List (Option Tile))

/-- The city (source: `City`).  The `screen_to_tile` closure and the pathmap
are modelled as standalone functions; `y_offset_base` is presentation-only. -/
structure City where
  tiles : Grid
  x_off : Int := 0
  y_off : Int := 0
  base_score : Int := 0
  deriving DecidableEq

/-- Source: `City.stepx` class constant. -/
def stepx : Int := 16

/-- Source: `City.stepy` class constant. -/
def stepy : Int := 14

/-- Source: `City.block_height` class constant. -/
def block_height : Int := 8

/-- Source: `City.base_tile_to_screen`. -/
def City.base_tile_to_screen (col row altitude : Int) : Int × Int :=
  (row * stepx - col * stepy,
   pydiv (row * stepx) 2 + pydiv (col * stepy) 2 - altitude * block_height)

/-- Source: `City.tile_to_screen`. -/
def City.tile_to_screen (city : City) (col row altitude : Int) : Int × Int :=
  ((City.base_tile_to_screen col row altitude).1 + city.x_off,
   (City.base_tile_to_screen col row altitude).2 + city.y_off)

/-- The number of columns the bounds checks use: `len(tiles[0])`. -/
def widthG (tiles : Grid) : Nat := (tiles.headD []).length

/-- The number of columns the bounds check of `valid_drop_spot` uses:
`len(self.tiles[0])`. -/
def City.width (city : City) : Nat := widthG city.tiles

/-- The check `valid_drop_spot` performs for a single footprint part
(source: the loop body of `City.valid_drop_spot`). -/
def City.valid_part (city : City) (base_col base_row base_altitude : Int)
    (part : BlockPart) : Bool :=
  if part.row + base_row < 0 ∨ (city.tiles.length : Int) ≤ part.row + base_row then false
  else if part.col + base_col < 0 ∨ (city.width : Int) ≤ part.col + base_col then false
  else
    match pyget city.tiles (part.row + base_row) with
    | none => false
    | some tileRow =>
      match pyget tileRow (part.col + base_col) with
      | none => false
      | some none => false
      | some (some tile) =>
        match tile.blocks with
        | none => false
        | some stack => part.altitude + base_altitude == (stack.length : Int)

/-- Source: `City.valid_drop_spot`. -/
def City.valid_drop_spot (city : City) (base_col base_row base_altitude : Int)
    (block : Block) : Bool :=
  block.blocktype.footprint.all (City.valid_part city base_col base_row base_altitude)

/-- Total lookup of the tile at nonnegative coordinates (spec-side helper;
`none` for out-of-range coordinates or an off-map (`None`) tile). -/
def cellAtG (tiles : Grid) (col row : Int) : Option Tile :=
  if 0 ≤ row ∧ 0 ≤ col then
    match tiles[row.toNat]? with
    | none => none
    | some tileRow => (tileRow[col.toNat]?).join
  else none

/-- The stack of the tile at the given coordinates, when that tile exists and
is buildable (spec-side helper). -/
def stackAtG (tiles : Grid) (col row : Int) : Option (List TileBlock) :=
  (cellAtG tiles col row).bind Tile.blocks

/-- `cellAtG` on a city. -/
def cellAt (city : City) (col row : Int) : Option Tile :=
  cellAtG city.tiles col row

/-- `stackAtG` on a city. -/
def stackAt (city : City) (col row : Int) : Option (List TileBlock) :=
  stackAtG city.tiles col row

/-- The grid is rectangular: every row has the width used by the bounds
checks.  `City.load` always builds a 16×16 grid, so every city of the program
satisfies this. -/
def RectG (tiles : Grid) : Prop :=
  ∀ tileRow ∈ tiles, tileRow.length = widthG tiles

instance (tiles : Grid) : Decidable (RectG tiles) := by
  unfold RectG; infer_instance

/-- `RectG` on a city. -/
def Rect (city : City) : Prop := RectG city.tiles

instance (city : City) : Decidable (Rect city) := by
  unfold Rect; infer_instance

/-- The property claimed for `valid_drop_spot`, written from the spec: every
footprint part's absolute cell is in bounds, lands on an existing buildable
tile, and its altitude equals that tile's current stack length. -/
def SpecValid (city : City) (base_col base_row base_altitude : Int)
    (block : Block) : Prop :=
  ∀ part ∈ block.blocktype.footprint,
    0 ≤ part.row + base_row ∧ part.row + base_row < (city.tiles.length : Int) ∧
    0 ≤ part.col + base_col ∧ part.col + base_col < (city.width : Int) ∧
    ∃ stack, stackAt city (part.col + base_col) (part.row + base_row) = some stack ∧
      part.altitude + base_altitude = (stack.length : Int)

/-- The append loop of `City.add` (source: the `for idx, part in
enumerate(block.blocktype.footprint)` loop): appends a `TileBlock` entry to
the stack of each footprint tile.  `none` models a raised exception (index
error, `None` tile, or `.append` on a non-buildable tile's `None` stack). -/
def City.addLoop (tiles : Grid) (block : Block) (parts : List BlockPart)
    (idx : Nat) (base_col base_row : Int) : Option Grid :=
  match parts with
  | [] => some tiles
  | part :: rest =>
    match pyget tiles (part.row + base_row) with
    | none => none
    | some tileRow =>
      match pyget tileRow (part.col + base_col) with
      | none => none
      | some none => none
      | some (some tile) =>
        match tile.blocks with
        | none => none
        | some stack =>
          match pyset tileRow (part.col + base_col)
              (some { blocks := some (stack ++ [⟨block, idx⟩]) }) with
          | none => none
          | some tileRow2 =>
            match pyset tiles (part.row + base_row) tileRow2 with
            | none => none
            | some tiles2 => City.addLoop tiles2 block rest (idx + 1) base_col base_row

/-- Source: `City.add`.  Reads the anchor tile's stack length, stamps the
block's placement fields and screen position, then appends one stack entry
per footprint part.  Returns the updated city and block (`none` models a
raised exception). -/
def City.add (city : City) (base_col base_row : Int) (block : Block) :
    Option (City × Block) :=
  match pyget city.tiles base_row with
  | none => none
  | some tileRow =>
    match pyget tileRow base_col with
    | none => none
    | some none => none
    | some (some base_tile) =>
      match base_tile.blocks with
      | none => none
      | some stack =>
        match City.addLoop city.tiles
            { block with
              col := some base_col
              row := some base_row
              altitude := some (stack.length : Int)
              x := (city.tile_to_screen base_col base_row (stack.length : Int)).1
              y := (city.tile_to_screen base_col base_row (stack.length : Int)).2 }
            block.blocktype.footprint 0 base_col base_row with
        | none => none
        | some tiles2 =>
          some ({ city with tiles := tiles2 },
            { block with
              col := some base_col
              row := some base_row
              altitude := some (stack.length : Int)
              x := (city.tile_to_screen base_col base_row (stack.length : Int)).1
              y := (city.tile_to_screen base_col base_row (stack.length : Int)).2 })

/-- The check loop of `City.remove` (source: the first `for part in
bt.footprint` loop): verifies that the block is topmost on every tile its
footprint occupies.  `some none` models `return False`; `some (some locs)`
collects the tile coordinates whose stacks are to be popped (the source
collects the list objects themselves); `none` models a raised exception. -/
def City.removeCheck (tiles : Grid) (parts : List BlockPart)
    (base_col base_row base_altitude : Int) : Option (Option (List (Int × Int))) :=
  match parts with
  | [] => some (some [])
  | part :: rest =>
    match pyget tiles (part.row + base_row) with
    | none => none
    | some tileRow =>
      match pyget tileRow (part.col + base_col) with
      | none => none
      | some none => none
      | some (some tile) =>
        match tile.blocks with
        | none => none
        | some stack =>
          if (stack.length : Int) ≠ part.altitude + base_altitude + 1 then some none
          else
            match City.removeCheck tiles rest base_col base_row base_altitude with
            | none => none
            | some none => some none
            | some (some locs) =>
              some (some ((part.col + base_col, part.row + base_row) :: locs))

/-- Pop the topmost entry of the stack at one grid location (source: one
`tb.pop()` call of `City.remove`); `none` models a raised exception
(popping an empty list). -/
def popStack (tiles : Grid) (loc : Int × Int) : Option Grid :=
  match pyget tiles loc.2 with
  | none => none
  | some tileRow =>
    match pyget tileRow loc.1 with
    | none => none
    | some none => none
    | some (some tile) =>
      match tile.blocks with
      | none => none
      | some stack =>
        if stack.isEmpty then none
        else
          match pyset tileRow loc.1 (some { blocks := some stack.dropLast }) with
          | none => none
          | some tileRow2 =>
            match pyset tiles loc.2 tileRow2 with
            | none => none
            | some tiles2 => some tiles2

/-- Pop the topmost entry of every collected stack (source: the
`for tb in to_pop: tb.pop()` loop of `City.remove`). -/
def popAll (tiles : Grid) (locs : List (Int × Int)) : Option Grid :=
  match locs with
  | [] => some tiles
  | loc :: rest =>
    match popStack tiles loc with
    | none => none
    | some tiles2 => popAll tiles2 rest

/-- Source: `City.remove`.  Returns `some (false, ..)` for the `return False`
path (city and block unchanged), `some (true, ..)` on success (stacks popped,
block unplaced); `none` models a raised exception, including the `None`
arithmetic that `part.col + block.col` would perform on an unplaced block. -/
def City.remove (city : City) (block : Block) : Option (Bool × City × Block) :=
  match block.col, block.row, block.altitude with
  | some bcol, some brow, some balt =>
    match City.removeCheck city.tiles block.blocktype.footprint bcol brow balt with
    | none => none
    | some none => some (false, city, block)
    | some (some locs) =>
      match popAll city.tiles locs with
      | none => none
      | some tiles2 =>
        some (true, { city with tiles := tiles2 },
          { block with
            col := none
            row := none
            altitude := none })
  | _, _, _ => none

/-- The body of the scoring loop of `City.score`: `if tile and tile.blocks:
score += len(tile.blocks) * (len(tile.blocks) - 1) // 2` (Python truthiness
skips `None` tiles, non-buildable tiles and empty stacks). -/
def scoreBody (acc : Int) (ocell : Option Tile) : Int :=
  match ocell with
  | none => acc
  | some tile =>
    match tile.blocks with
    | none => acc
    | some stack =>
      if stack.isEmpty then acc
      else acc + pydiv ((stack.length : Int) * ((stack.length : Int) - 1)) 2

/-- Source: `City.score`. -/
def City.score (city : City) : Int :=
  (city.tiles.foldl (fun acc tileRow => tileRow.foldl scoreBody acc) 0) - city.base_score

/-- The spec's per-tile score contribution: `h*(h-1)/2` for a buildable tile
of stack height `h`, and 0 for off-map or non-buildable tiles. -/
def scoreTerm (ocell : Option Tile) : Int :=
  match ocell with
  | none => 0
  | some tile =>
    match tile.blocks with
    | none => 0
    | some stack => pydiv ((stack.length : Int) * ((stack.length : Int) - 1)) 2

/-- The spec's score sum: over all buildable tiles, `h*(h-1)/2`. -/
def specScoreSum (city : City) : Int :=
  (city.tiles.map (fun tileRow => (tileRow.map scoreTerm).sum)).sum

/-- Source: `City.__post_init__`, which runs on a freshly constructed city
(where the `base_score` dataclass field has its default value `0`) and sets
`base_score = self.score()`. -/
def City.postInit (city : City) : City :=
  { city with base_score := city.score }

/-- Source: the `screen_to_tile` closure defined inside `City.load`,
capturing the window origin `(cx, cy)` and the projection offsets. -/
def screen_to_tile (cx cy x_off y_off : Int) (sx sy : Int) : Int × Int :=
  (cx + pydiv (pydiv (2 * (sy - y_off - 8) - (sx - x_off - 8)) 2) stepy,
   cy + pydiv (pydiv (2 * (sy - y_off - 8) + (sx - x_off - 8)) 2) stepx)

/-- The footprint parts occupy pairwise distinct tiles.  Every block type in
the program's catalog (`NormalBlocks`, `RedBlocks`, `Skybridges`, `Skyramps`)
satisfies this: each has one part, or two parts with distinct
`(col, row)` offsets. -/
def PartsDistinct (parts : List BlockPart) : Prop :=
  parts.Pairwise (fun p q => (p.col, p.row) ≠ (q.col, q.row))

instance (parts : List BlockPart) : Decidable (PartsDistinct parts) := by
  unfold PartsDistinct; infer_instance

/-- The postcondition claimed for `add`, written from the spec: the block
becomes placed at the anchor with the given base altitude; each footprint
part's tile gains exactly one entry referencing the placed block, appended at
stack position `base_altitude + part.altitude`; every other cell of the grid
is unchanged. -/
def AddResult (city : City) (base_col base_row base_altitude : Int)
    (block : Block) (city2 : City) (block2 : Block) : Prop :=
  block2.col = some base_col ∧ block2.row = some base_row ∧
  block2.altitude = some base_altitude ∧ block2.blocktype = block.blocktype ∧
  (∀ idx part, block.blocktype.footprint[idx]? = some part →
    ∃ stack, stackAt city (part.col + base_col) (part.row + base_row) = some stack ∧
      (stack.length : Int) = part.altitude + base_altitude ∧
      stackAt city2 (part.col + base_col) (part.row + base_row) =
        some (stack ++ [⟨block2, idx⟩])) ∧
  (∀ col row : Int, (∀ part ∈ block.blocktype.footprint,
      ¬(col = part.col + base_col ∧ row = part.row + base_row)) →
    cellAt city2 col row = cellAt city col row)

/-- One stack entry is consistent with height index `i`: its block is placed
and the block's base altitude plus the entry's footprint-part altitude equals
`i` (the entry's recorded altitude equals its position in the stack). -/
def GoodEntry (tb : TileBlock) (i : Nat) : Prop :=
  match tb.block.altitude, tb.block.blocktype.footprint[tb.index]? with
  | some ba, some part => ba + part.altitude = (i : Int)
  | _, _ => False

instance (tb : TileBlock) (i : Nat) : Decidable (GoodEntry tb i) := by
  unfold GoodEntry
  rcases tb.block.altitude with - | ba <;>
    rcases tb.block.blocktype.footprint[tb.index]? with - | p
  · exact isFalse fun h => h
  · exact isFalse fun h => h
  · exact isFalse fun h => h
  · exact (inferInstance : Decidable (ba + p.altitude = (i : Int)))

/-- Every entry of the stack records exactly its own index as altitude, so
the occupied altitudes are the contiguous range `[0, stack.length)`. -/
def GoodStack (stack : List TileBlock) : Prop :=
  ∀ p ∈ stack.enum, GoodEntry p.2 p.1

instance (stack : List TileBlock) : Decidable (GoodStack stack) := by
  unfold GoodStack; infer_instance

/-- The contiguity condition on the (optional) stack of one grid cell. -/
def StackOk : Option (List TileBlock) → Prop
  | none => True
  | some stack => GoodStack stack

instance : (s : Option (List TileBlock)) → Decidable (StackOk s)
  | none => isTrue trivial
  | some stack => (inferInstance : Decidable (GoodStack stack))

/-- The contiguity condition for one grid cell. -/
def CellOk (ocell : Option Tile) : Prop :=
  StackOk (ocell.bind Tile.blocks)

instance (ocell : Option Tile) : Decidable (CellOk ocell) := by
  unfold CellOk; infer_instance

/-- The stack-contiguity invariant for the whole grid. -/
def InvG (tiles : Grid) : Prop :=
  ∀ tileRow ∈ tiles, ∀ ocell ∈ tileRow, CellOk ocell

instance (tiles : Grid) : Decidable (InvG tiles) := by
  unfold InvG; infer_instance

/-- What `City.load` guarantees of one seeded stack entry: it is the sole
part (index 0) of a single-part block type with zero offsets, placed at
height `i` (`load` seeds `Block(x, y, col, row, h, sprites[...])` at each
height `h` and appends `TileBlock(b, 0)`). -/
def LoadedEntry (tb : TileBlock) (i : Nat) : Prop :=
  tb.index = 0 ∧ tb.block.altitude = some (i : Int) ∧
  tb.block.blocktype.footprint = [{ col := 0, row := 0, altitude := 0 }]

instance (tb : TileBlock) (i : Nat) : Decidable (LoadedEntry tb i) := by
  unfold LoadedEntry; infer_instance

/-- The load-time shape of the (optional) stack of one grid cell. -/
def StackLoaded : Option (List TileBlock) → Prop
  | none => True
  | some stack => ∀ p ∈ stack.enum, LoadedEntry p.2 p.1

instance : (s : Option (List TileBlock)) → Decidable (StackLoaded s)
  | none => isTrue trivial
  | some stack =>
    (inferInstance : Decidable (∀ p ∈ stack.enum, LoadedEntry p.2 p.1))

/-- A city as `City.load` builds it: every seeded stack consists of
`LoadedEntry`-shaped entries, bottom to top. -/
def Loaded (city : City) : Prop :=
  ∀ tileRow ∈ city.tiles, ∀ ocell ∈ tileRow, StackLoaded (ocell.bind Tile.blocks)

instance (city : City) : Decidable (Loaded city) := by
  unfold Loaded; infer_instance

/-- The states reachable from `c0` by the mutation interface, with every
`add` guarded as the spec requires: `valid_drop_spot` approved the spot at
the anchor tile's current stack length (and, per the correction to C5, the
footprint occupies pairwise distinct tiles, as all catalog block types do).
`remove` steps are unguarded: the operation itself rejects non-topmost
blocks. -/
inductive Reach : City → City → Prop where
  | refl (c : City) : Reach c c
  | add_step (c0 c1 c2 : City) (base_col base_row : Int) (astack : List TileBlock)
      (block block2 : Block) :
      Reach c0 c1 →
      stackAt c1 base_col base_row = some astack →
      City.valid_drop_spot c1 base_col base_row (astack.length : Int) block = true →
      PartsDistinct block.blocktype.footprint →
      City.add c1 base_col base_row block = some (c2, block2) →
      Reach c0 c2
  | remove_step (c0 c1 c2 : City) (res : Bool) (block block2 : Block) :
      Reach c0 c1 →
      City.remove c1 block = some (res, c2, block2) →
      Reach c0 c2

/-- A concrete 1×1 city with one buildable tile holding an empty stack,
used for witnesses and counterexamples. -/
def cityW : City := { tiles := [[some { blocks := some [] }]] }

/-- A concrete block with a single-part footprint at offset `(0,0,0)`. -/
def blockW : Block :=
  { x := 0, y := 0, col := none, row := none, altitude := none
    blocktype := { footprint := [{ col := 0, row := 0, altitude := 0 }] } }

/-- A block whose footprint lists the same `(0,0,0)` part twice — the spec
declares overlapping footprints legal, and this shape drives the
counterexamples to C2, C4 and C5. -/
def blockDup : Block :=
  { x := 5, y := 7, col := none, row := none, altitude := none
    blocktype := { footprint :=
      [{ col := 0, row := 0, altitude := 0 }, { col := 0, row := 0, altitude := 0 }] } }

/-- The value `add` stamps `blockDup` with when dropped at `(0,0)` on
`cityW`. -/
def blockDupPlaced : Block :=
  { x := 0, y := 0, col := some 0, row := some 0, altitude := some 0
    blocktype := blockDup.blocktype }

/-- The city `add` produces from `cityW` when dropping `blockDup` at
`(0, 0)`: both entries land on the single tile's stack. -/
def cityDup2 : City :=
  { tiles := [[some { blocks := some [⟨blockDupPlaced, 0⟩, ⟨blockDupPlaced, 1⟩] }]] }

/-- Source: `T_GOAL` (the red-tile marker in the static tilemap). -/
def T_GOAL : Nat × Nat := (3, 1)

/-- Source: `T_BLOCK` (the blue buildable-tile marker, an obstacle for
invaders). -/
def T_BLOCK : Nat × Nat := (0, 1)

/-- The static tilemap, modelled as the function `pyxel.Tilemap.pget`. -/
def Tilemap : Type := Int × Int → Nat × Nat

/-- A recorded distance: `some n` is a finite value, `none` is Python's
`float("inf")` (stored for blocked cells). -/
abbrev DVal := Option Nat

/-- The `distance` dict of `tilemap_to_pathmap`, as an association list;
every key is inserted at most once, so lookup order is immaterial. -/
abbrev DMap := List ((Int × Int) × DVal)

/-- Dictionary lookup: `none` means the key is absent (`(col, row) not in
distance`). -/
def dmLookup (m : DMap) (k : Int × Int) : Option DVal :=
  (m.find? (fun e => e.1 == k)).map (fun e => e.2)

/-- The `<` comparison of recorded distances, with `none` as `inf`
(`inf < inf` is false in Python). -/
def dLT : DVal → DVal → Bool
  | some a, some b => decide (a < b)
  | some _, none => true
  | none, _ => false

/-- `d + 1` on recorded distances (`inf + 1 = inf`). -/
def dsucc : DVal → DVal
  | none => none
  | some n => some (n + 1)

/-- The 16×16 window cells in the iteration order of the source
(`for row in range(cy, cy + 16): for col in range(cx, cx + 16)`), as
`(col, row)` keys. -/
def windowCells (cx cy : Int) : List (Int × Int) :=
  (List.range 16).flatMap (fun r => (List.range 16).map (fun c => (cx + c, cy + r)))

/-- The initialisation loop of `tilemap_to_pathmap`: goal cells at distance
0, blocked cells at `inf`. -/
def initDistance (cx cy : Int) (tm : Tilemap) : DMap :=
  (windowCells cx cy).foldl (fun m cell =>
    if tm cell = T_GOAL then m ++ [(cell, some 0)]
    else if tm cell = T_BLOCK then m ++ [(cell, none)]
    else m) []

/-- One cell of a relaxation sweep (the body of the inner loop of the
`for n in range(16 * 16)` loop): an absent cell takes the best
neighbour-distance-plus-one, if that is below 100.  The dict is updated in
place, so cells later in the same sweep see this insertion. -/
def relaxCell (m : DMap) (cell : Int × Int) : DMap :=
  if (dmLookup m cell).isSome then m
  else
    let best := ([((-1 : Int), (0 : Int)), (1, 0), (0, -1), (0, 1)]).foldl
      (fun best d =>
        match dmLookup m (cell.1 + d.1, cell.2 + d.2) with
        | none => best
        | some dv => if dLT (dsucc dv) best then dsucc dv else best) none
    if dLT best (some 100) then m ++ [(cell, best)] else m

/-- One full relaxation sweep over the window. -/
def sweepDistance (cx cy : Int) (m : DMap) : DMap :=
  (windowCells cx cy).foldl relaxCell m

/-- The distance-building phase of `tilemap_to_pathmap`: `16 * 16`
relaxation sweeps after initialisation. -/
def buildDistance (cx cy : Int) (tm : Tilemap) : DMap :=
  (List.range (16 * 16)).foldl (fun m _ => sweepDistance cx cy m)
    (initDistance cx cy tm)

/-- The five direction options in the source's fixed check order:
stay, -col, +col, -row, +row. -/
def dirOptions : List (Int × Int) := [(0, 0), (-1, 0), (1, 0), (0, -1), (0, 1)]

/-- The direction-derivation loop body of `tilemap_to_pathmap` for one cell:
scan the options in order, keeping the first strict improvement. -/
def bestDir (m : DMap) (cell : Int × Int) : Int × Int :=
  (dirOptions.foldl (fun acc d =>
    match dmLookup m (cell.1 + d.1, cell.2 + d.2) with
    | none => acc
    | some dv => if dLT dv acc.1 then (dv, d) else acc)
    ((none : DVal), ((0 : Int), (0 : Int)))).2

/-- Source: `tilemap_to_pathmap`, returning the pathmap as an association
list over the window cells. -/
def tilemap_to_pathmap (cx cy : Int) (tm : Tilemap) : List ((Int × Int) × (Int × Int)) :=
  (windowCells cx cy).map (fun cell => (cell, bestDir (buildDistance cx cy tm) cell))

/-- Lookup in the pathmap association list. -/
def pmLookup (pm : List ((Int × Int) × (Int × Int))) (k : Int × Int) : Option (Int × Int) :=
  (pm.find? (fun e => e.1 == k)).map (fun e => e.2)

/-- The finite recorded distance of a direction option's target cell:
`some v` iff the target is recorded with finite distance `v` (absent and
`inf`-recorded targets both yield `none`). -/
def effDist (m : DMap) (cell : Int × Int) (d : Int × Int) : Option Nat :=
  (dmLookup m (cell.1 + d.1, cell.2 + d.2)).bind id

/-- The tilemap driving the C7 counterexample: cell `(0, 0)` is the only
goal, every other cell of the plane is a blocked (buildable) cell. -/
def tmC7 : Tilemap := fun p => if p = ((0 : Int), (0 : Int)) then T_GOAL else T_BLOCK

/-- The condition under which the spec says `remove` succeeds: every
footprint part's tile has stack length exactly
`part.altitude + base_altitude + 1`, i.e. the block is topmost everywhere it
stands. -/
def Topmost (city : City) (block : Block) (base_col base_row base_altitude : Int) : Prop :=
  ∀ p ∈ block.blocktype.footprint,
    (stackAt city (p.col + base_col) (p.row + base_row)).map
      (fun s => (s.length : Int)) = some (p.altitude + base_altitude + 1)

instance (city : City) (block : Block) (base_col base_row base_altitude : Int) :
    Decidable (Topmost city block base_col base_row base_altitude) := by
  unfold Topmost; infer_instance

/-- `blockW` as `add` places it at `(0, 0)` altitude 0 on `cityW`. -/
def blockWPlaced : Block :=
  { x := 0, y := 0, col := some 0, row := some 0, altitude := some 0
    blocktype := blockW.blocktype }

/-- A 1×1 city whose single tile carries one placed copy of `blockW`. -/
def cityOne : City :=
  { tiles := [[some { blocks := some [⟨blockWPlaced, 0⟩] }]] }

/-- A 1×1 city with a single-entry stack, used as the state on which
`remove` of the duplicate-part block `blockDupPlaced` passes its topmost
check on both (identical) parts and then pops the one-entry stack twice. -/
def cityC3 : City :=
  { tiles := [[some { blocks := some [⟨blockW, 0⟩] }]] }

/-- Source: `DropSpot` with its two subclasses `DropInCity` and
`DropInNewArea`. -/
inductive DropSpot where
  | city (valid : Bool) (col row altitude : Int)
  | newArea (valid : Bool) (x y : Int)
  deriving DecidableEq

/-- The `valid` field a drop spot carries. -/
def DropSpot.valid : DropSpot → Bool
  | .city v _ _ _ => v
  | .newArea v _ _ => v

/-- Source: `NewBlockArea` (the staging area).  The slot list holds
`Option Block` because `placed()` writes `None` into the carried slot. -/
structure NewBlockArea where
  blocks : List (Option Block)
  carried_src_x : Int
  carried_src_y : Int
  carried_idx : Option Nat

/-- Source: `NewBlockArea.x_origin` class constant. -/
def NewBlockArea.x_origin : Int := 56

/-- Source: `NewBlockArea.y_origin` class constant. -/
def NewBlockArea.y_origin : Int := 35

/-- Source: `NewBlockArea.block_width` class constant. -/
def NewBlockArea.block_width : Int := 32

/-- Source: `NewBlockArea.height` class constant. -/
def NewBlockArea.height : Int := 32

/-- Source: `NewBlockArea.border` class constant. -/
def NewBlockArea.border : Int := 2

/-- Source: `NewBlockArea.coords_for_idx` (a method that reads only class
constants).  The camera altitude can be a non-integer, so the returned
coordinates are rationals. -/
def NewBlockArea.coords_for_idx (idx : Nat) (camera_altitude : ℚ) (center : Bool) :
    ℚ × ℚ :=
  let x : ℚ := (NewBlockArea.x_origin : ℚ) + (NewBlockArea.border : ℚ) +
    (NewBlockArea.block_width : ℚ) * (idx : ℚ)
  let y : ℚ := (NewBlockArea.y_origin : ℚ) + (NewBlockArea.border : ℚ) - camera_altitude
  if center then
    (x + ((pydiv NewBlockArea.block_width 2 : Int) : ℚ),
     y + ((pydiv NewBlockArea.height 2 : Int) : ℚ))
  else (x, y)

/-- Source: the fields of `Game` that the spatial queries read. -/
structure Game where
  city : City
  new_block_area : Option NewBlockArea
  camera_altitude : ℚ

/-- The running state of the tile loop of `Game.closest_drop_spot`:
`closest`, `closest_dist` (kept squared) and `closest_is_valid`. -/
structure DropState where
  closest : Option DropSpot
  closest_dist2 : ℚ
  closest_is_valid : Bool

/-- Source: one iteration of the tile double loop of
`Game.closest_drop_spot`.  Distances are kept squared: `math.hypot`
comparisons between nonnegative distances agree with comparisons of their
squares, so `dist > 40` becomes `dist² > 1600` and `dist <= closest_dist`
becomes `dist² <= closest_dist²`. -/
def dropCell (g : Game) (x y : ℚ) (block : Block) (row col : Nat)
    (otile : Option Tile) (st : DropState) : DropState :=
  match otile with
  | none => st
  | some tile =>
    match tile.blocks with
    | none => st
    | some blocks =>
      let altitude : Int := blocks.length
      let top := g.city.tile_to_screen col row altitude
      let dx : ℚ := (top.1 : ℚ) + 8 - x
      let dy : ℚ := (top.2 : ℚ) + 8 - y
      let dist2 := dx * dx + dy * dy
      if 1600 < dist2 then st
      else
        let valid := g.city.valid_drop_spot col row altitude block
        if (valid && !st.closest_is_valid) ||
            (decide (dist2 ≤ st.closest_dist2) && (valid == st.closest_is_valid)) then
          { closest := some (DropSpot.city valid col row altitude)
            closest_dist2 := dist2
            closest_is_valid := valid }
        else st

/-- Source: the tile double loop of `Game.closest_drop_spot`, starting from
`closest = None`, `closest_dist = max_dist = 40` (squared: 1600),
`closest_is_valid = False`. -/
def cityDropFold (g : Game) (x y : ℚ) (block : Block) : DropState :=
  g.city.tiles.enum.foldl (fun st rowPair =>
    rowPair.2.enum.foldl (fun st colPair =>
      dropCell g x y block rowPair.1 colPair.1 colPair.2 st) st)
    { closest := none, closest_dist2 := 1600, closest_is_valid := false }

/-- Source: `Game.closest_drop_spot` (squared distances). -/
def closest_drop_spot (g : Game) (x y : ℚ) (block : Block) : Option DropSpot :=
  let st := cityDropFold g x y block
  match g.new_block_area with
  | none => st.closest
  | some nba =>
    match nba.carried_idx with
    | none => st.closest
    | some idx =>
      let b := NewBlockArea.coords_for_idx idx g.camera_altitude true
      let dx := b.1 - x
      let dy := b.2 - y
      let dist2 := dx * dx + dy * dy
      if dist2 < st.closest_dist2 then
        some (DropSpot.newArea true nba.carried_src_x nba.carried_src_y)
      else st.closest

/-- Spec-side: the within-radius candidate (if any) a single cell of the
tile loop of `closest_drop_spot` contributes, with its squared distance. -/
def cellCandidate (g : Game) (x y : ℚ) (block : Block) (row col : Nat)
    (otile : Option Tile) : List (DropSpot × ℚ) :=
  match otile with
  | none => []
  | some tile =>
    match tile.blocks with
    | none => []
    | some blocks =>
      let altitude : Int := blocks.length
      let top := g.city.tile_to_screen col row altitude
      let dx : ℚ := (top.1 : ℚ) + 8 - x
      let dy : ℚ := (top.2 : ℚ) + 8 - y
      let dist2 := dx * dx + dy * dy
      if 1600 < dist2 then []
      else
        [(DropSpot.city (g.city.valid_drop_spot col row altitude block) col row altitude,
          dist2)]

/-- Spec-side: all within-radius city candidates of `closest_drop_spot` in
scan order (row-major over the grid). -/
def cityCandidates (g : Game) (x y : ℚ) (block : Block) : List (DropSpot × ℚ) :=
  g.city.tiles.enum.flatMap (fun rowPair =>
    rowPair.2.enum.flatMap (fun colPair =>
      cellCandidate g x y block rowPair.1 colPair.1 colPair.2))

/-- Spec-side: the selection step of the tile loop of `closest_drop_spot`,
acting on one within-radius candidate. -/
def dropStep (st : DropState) (c : DropSpot × ℚ) : DropState :=
  if (c.1.valid && !st.closest_is_valid) ||
      (decide (c.2 ≤ st.closest_dist2) && (c.1.valid == st.closest_is_valid)) then
    { closest := some c.1, closest_dist2 := c.2, closest_is_valid := c.1.valid }
  else st

/-- Spec-side: the staging return candidate of `closest_drop_spot` — its
squared distance to the query point and the stored return coordinates —
present exactly when the staging area exists and the carried block came
from it. -/
def stagingCandidate (g : Game) (x y : ℚ) : Option (ℚ × Int × Int) :=
  match g.new_block_area with
  | none => none
  | some nba =>
    match nba.carried_idx with
    | none => none
    | some idx =>
      let b := NewBlockArea.coords_for_idx idx g.camera_altitude true
      some ((b.1 - x) * (b.1 - x) + (b.2 - y) * (b.2 - y),
        nba.carried_src_x, nba.carried_src_y)

/-- The running state of the tile loop of `Game.closest_pickup_spot`. -/
structure PickState where
  closest : Option Block
  closest_is_new : Option Bool
  closest_dist2 : ℚ

/-- Source: one iteration of the tile loop of `Game.closest_pickup_spot`
(squared distances).  `not tile.blocks` also skips the empty stack. -/
def pickCell (g : Game) (x y : ℚ) (row col : Nat) (otile : Option Tile)
    (st : PickState) : PickState :=
  match otile with
  | none => st
  | some tile =>
    match tile.blocks with
    | none => st
    | some [] => st
    | some (tb0 :: tbs) =>
      let top := g.city.tile_to_screen col row (((tb0 :: tbs).length : Int) - 1)
      let dx : ℚ := (top.1 : ℚ) + 8 - x
      let dy : ℚ := (top.2 : ℚ) + 8 - y
      let dist2 := dx * dx + dy * dy
      if dist2 ≤ st.closest_dist2 then
        { closest := some ((tb0 :: tbs).getLast (List.cons_ne_nil tb0 tbs)).block
          closest_is_new := some false
          closest_dist2 := dist2 }
      else st

/-- Source: the staging loop of `Game.closest_pickup_spot`; reading `b.x`
off a `None` slot raises, modelled as `none`. -/
def pickStaging (nba : NewBlockArea) (x y : ℚ) (st : PickState) : Option PickState :=
  nba.blocks.foldl (fun acc ob =>
    match acc with
    | none => none
    | some st =>
      match ob with
      | none => none
      | some b =>
        let dx : ℚ := (b.x : ℚ) + (b.blocktype.x_center : ℚ) - x
        let dy : ℚ := (b.y : ℚ) + (b.blocktype.y_center : ℚ) - y
        let dist2 := dx * dx + dy * dy
        if dist2 ≤ st.closest_dist2 then
          some { closest := some b, closest_is_new := some true, closest_dist2 := dist2 }
        else some st) (some st)

/-- Source: the city tile loop of `Game.closest_pickup_spot`, starting from
`closest = None`, `closest_is_new = None`, `closest_dist = 40`
(squared: 1600). -/
def pickCityFold (g : Game) (x y : ℚ) : PickState :=
  g.city.tiles.enum.foldl (fun st rowPair =>
    rowPair.2.enum.foldl (fun st colPair =>
      pickCell g x y rowPair.1 colPair.1 colPair.2 st) st)
    { closest := none, closest_is_new := none, closest_dist2 := 1600 }

/-- Source: `Game.closest_pickup_spot` (squared distances; `none` models
the raise on a `None` staging slot). -/
def closest_pickup_spot (g : Game) (x y : ℚ) : Option (Option Block × Option Bool) :=
  let st1 := pickCityFold g x y
  match g.new_block_area with
  | none => some (st1.closest, st1.closest_is_new)
  | some nba =>
    match pickStaging nba x y st1 with
    | none => none
    | some st2 => some (st2.closest, st2.closest_is_new)

/-- Spec-side: the squared distance (if any) of the pickup candidate one
cell of the tile loop offers: tiles with a non-empty stack, measured at the
top-of-stack point. -/
def pickCellDists (g : Game) (x y : ℚ) (row col : Nat) (otile : Option Tile) :
    List ℚ :=
  match otile with
  | none => []
  | some tile =>
    match tile.blocks with
    | none => []
    | some [] => []
    | some (tb0 :: tbs) =>
      let top := g.city.tile_to_screen col row (((tb0 :: tbs).length : Int) - 1)
      let dx : ℚ := (top.1 : ℚ) + 8 - x
      let dy : ℚ := (top.2 : ℚ) + 8 - y
      [dx * dx + dy * dy]

/-- Spec-side: the squared distances of all city pickup candidates. -/
def pickupCityDists (g : Game) (x y : ℚ) : List ℚ :=
  g.city.tiles.enum.flatMap (fun rowPair =>
    rowPair.2.enum.flatMap (fun colPair =>
      pickCellDists g x y rowPair.1 colPair.1 colPair.2))

/-- Spec-side: the squared distances of the populated staging slots to the
query point. -/
def pickupStagingDists (nba : NewBlockArea) (x y : ℚ) : List ℚ :=
  nba.blocks.flatMap (fun ob =>
    match ob with
    | none => []
    | some b =>
      let dx : ℚ := (b.x : ℚ) + (b.blocktype.x_center : ℚ) - x
      let dy : ℚ := (b.y : ℚ) + (b.blocktype.y_center : ℚ) - y
      [dx * dx + dy * dy])

/-- The staging-area hypotheses of the no-candidate pickup theorem: the
area, when present, has every slot populated (the declared type of
`NewBlockArea.blocks` is `list[Block]`) and no populated slot within the
pickup radius. -/
def PickupStagingFar (g : Game) (x y : ℚ) : Prop :=
  match g.new_block_area with
  | none => True
  | some nba =>
    (∀ ob ∈ nba.blocks, ob.isSome) ∧ (∀ d ∈ pickupStagingDists nba x y, 1600 < d)

/-- The game state of the C8 counterexample: a one-tile city whose tile
holds an empty stack, offsets placing the tile's drop point at screen
`(68, 48)`, and a staging area from which the carried block was taken
(slot 0). -/
def gameC8 : Game :=
  { city := { tiles := [[some { blocks := some [] }]], x_off := 60, y_off := 40 }
    new_block_area := some
      { blocks := [none], carried_src_x := 58, carried_src_y := 37
        carried_idx := some 0 }
    camera_altitude := 0 }

/-- The carried block of the C8 counterexample: a two-part footprint
`[(0,0,0), (-1,0,0)]`, so the one-tile city rejects it (the `(-1,0)` part
falls off the grid). -/
def blockC8 : Block :=
  { x := 0, y := 0, col := none, row := none, altitude := none
    blocktype := { footprint := [{ col := 0, row := 0, altitude := 0 },
      { col := -1, row := 0, altitude := 0 }] } }

/-- A game with a one-tile city holding an empty stack and no staging
area, so no pickup candidate exists anywhere. -/
def gameC10 : Game :=
  { city := { tiles := [[some { blocks := some [] }]] }
    new_block_area := none
    camera_altitude := 0 }

theorem pyidx_of_nonneg_lt {n : Nat} {i : Int} (h0 : 0 ≤ i) (h1 : i < (n : Int)) :
    pyidx n i = some i.toNat := by
  simp [pyidx, h0, h1]

theorem pyget_eq_getElem? {α : Type} {l : List α} {i : Int} (h0 : 0 ≤ i)
    (h1 : i < (l.length : Int)) : pyget l i = l[i.toNat]? := by
  simp [pyget, pyidx_of_nonneg_lt h0 h1]

theorem pyset_eq_set {α : Type} {l : List α} {i : Int} (h0 : 0 ≤ i)
    (h1 : i < (l.length : Int)) (a : α) : pyset l i a = some (l.set i.toNat a) := by
  simp [pyset, pyidx_of_nonneg_lt h0 h1]

theorem cellAtG_some_elim {tiles : Grid} {col row : Int} {tile : Tile}
    (h : cellAtG tiles col row = some tile) :
    0 ≤ col ∧ 0 ≤ row ∧ ∃ tileRow, tiles[row.toNat]? = some tileRow ∧
      tileRow[col.toNat]? = some (some tile) := by
  rw [cellAtG] at h
  split_ifs at h with hpos
  · obtain ⟨hr0, hc0⟩ := hpos
    refine ⟨hc0, hr0, ?_⟩
    rcases hrow : tiles[row.toNat]? with - | tileRow
    · rw [hrow] at h; cases h
    · rw [hrow] at h
      replace h : (tileRow[col.toNat]?).join = some tile := h
      exact ⟨tileRow, rfl, Option.join_eq_some.mp h⟩

theorem cellAtG_build {tiles : Grid} {col row : Int} {tileRow : List (Option Tile)}
    (hc0 : 0 ≤ col) (hr0 : 0 ≤ row) (hrow : tiles[row.toNat]? = some tileRow) :
    cellAtG tiles col row = (tileRow[col.toNat]?).join := by
  rw [cellAtG, if_pos ⟨hr0, hc0⟩, hrow]

theorem stackAtG_some_elim {tiles : Grid} {col row : Int} {stack : List TileBlock}
    (h : stackAtG tiles col row = some stack) :
    ∃ tile, cellAtG tiles col row = some tile ∧ tile.blocks = some stack := by
  rw [stackAtG] at h
  rcases hcell : cellAtG tiles col row with - | tile
  · rw [hcell] at h; cases h
  · rw [hcell] at h
    exact ⟨tile, rfl, h⟩

theorem stackAtG_congr {tiles2 tiles : Grid} {col row : Int}
    (h : cellAtG tiles2 col row = cellAtG tiles col row) :
    stackAtG tiles2 col row = stackAtG tiles col row := by
  rw [stackAtG, stackAtG, h]

theorem widthG_set {tiles : Grid} {n : Nat} {row2 : List (Option Tile)}
    (h : ∀ tileRow, tiles[n]? = some tileRow → row2.length = tileRow.length) :
    widthG (tiles.set n row2) = widthG tiles := by
  rcases tiles with - | ⟨a, rest⟩
  · simp
  · rcases n with - | n
    · have := h a (by simp)
      simp [widthG, List.headD, List.set, this]
    · simp [widthG, List.headD, List.set]

theorem rectG_set {tiles : Grid} {n : Nat} {row2 : List (Option Tile)}
    (hrect : RectG tiles) (h : ∀ tileRow, tiles[n]? = some tileRow → row2.length = tileRow.length)
    (hn : n < tiles.length) : RectG (tiles.set n row2) := by
  intro tileRow hmem
  rw [widthG_set h]
  rcases List.mem_or_eq_of_mem_set hmem with hmem2 | rfl
  · exact hrect _ hmem2
  · have hrow : tiles[n]? = some (tiles[n]) := List.getElem?_eq_getElem hn
    rw [h _ hrow]
    exact hrect _ (List.getElem_mem hn)

theorem cellAtG_set_self {tiles : Grid} {rn cn : Nat} {tileRow : List (Option Tile)}
    (hrow : tiles[rn]? = some tileRow) (hcn : cn < tileRow.length) (new : Option Tile) :
    cellAtG (tiles.set rn (tileRow.set cn new)) (cn : Int) (rn : Int) = new := by
  have hn : rn < tiles.length := (List.getElem?_eq_some_iff.mp hrow).1
  rw [cellAtG, if_pos ⟨Int.natCast_nonneg rn, Int.natCast_nonneg cn⟩]
  rw [Int.toNat_natCast, Int.toNat_natCast]
  rw [List.getElem?_set_self (by simpa using hn)]
  simp [List.getElem?_set_self (by simpa using hcn)]

theorem cellAtG_set_frame {tiles : Grid} {rn cn : Nat} {tileRow : List (Option Tile)}
    (hrow : tiles[rn]? = some tileRow) (new : Option Tile) :
    ∀ c r : Int, ¬(c = (cn : Int) ∧ r = (rn : Int)) →
      cellAtG (tiles.set rn (tileRow.set cn new)) c r = cellAtG tiles c r := by
  intro c r hne
  rw [cellAtG, cellAtG]
  by_cases hpos : 0 ≤ r ∧ 0 ≤ c
  · rw [if_pos hpos, if_pos hpos]
    by_cases hr : r.toNat = rn
    · have hreq : r = (rn : Int) := by omega
      have hcneq : c ≠ (cn : Int) := by
        intro hh
        exact hne ⟨hh, hreq⟩
      have hcneq2 : c.toNat ≠ cn := by omega
      rw [hr, List.getElem?_set_self (by simpa using (List.getElem?_eq_some_iff.mp hrow).1),
        hrow]
      simp only [Option.map_some]
      rw [List.getElem?_set_ne (by omega)]
    · rw [List.getElem?_set_ne (by omega)]
  · rw [if_neg hpos, if_neg hpos]

theorem addLoop_spec (parts : List BlockPart) :
    ∀ (tiles : Grid) (block : Block) (idx : Nat) (base_col base_row base_altitude : Int),
      RectG tiles →
      (∀ p ∈ parts, ∃ stack,
        stackAtG tiles (p.col + base_col) (p.row + base_row) = some stack ∧
        (stack.length : Int) = p.altitude + base_altitude) →
      parts.Pairwise (fun p q => (p.col, p.row) ≠ (q.col, q.row)) →
      ∃ tiles2, City.addLoop tiles block parts idx base_col base_row = some tiles2 ∧
        RectG tiles2 ∧ tiles2.length = tiles.length ∧ widthG tiles2 = widthG tiles ∧
        (∀ k p, parts[k]? = some p →
          ∃ stack, stackAtG tiles (p.col + base_col) (p.row + base_row) = some stack ∧
            (stack.length : Int) = p.altitude + base_altitude ∧
            stackAtG tiles2 (p.col + base_col) (p.row + base_row) =
              some (stack ++ [⟨block, idx + k⟩])) ∧
        (∀ c r : Int, (∀ p ∈ parts, ¬(c = p.col + base_col ∧ r = p.row + base_row)) →
          cellAtG tiles2 c r = cellAtG tiles c r) := by
  induction parts with
  | nil =>
    intro tiles block idx bc br ba hrect hstacks hpair
    refine ⟨tiles, rfl, hrect, rfl, rfl, ?_, fun c r h => rfl⟩
    intro k p hk
    simp at hk
  | cons p rest ih =>
    intro tiles block idx bc br ba hrect hstacks hpair
    obtain ⟨stackp, hsp, hlenp⟩ := hstacks p (List.mem_cons_self p rest)
    obtain ⟨tilep, hcellp, hblocksp⟩ := stackAtG_some_elim hsp
    obtain ⟨hc0, hr0, tileRow, hrow, hcol⟩ := cellAtG_some_elim hcellp
    have hrn : (p.row + br).toNat < tiles.length := (List.getElem?_eq_some_iff.mp hrow).1
    have hcn : (p.col + bc).toNat < tileRow.length := (List.getElem?_eq_some_iff.mp hcol).1
    have hget1 : pyget tiles (p.row + br) = some tileRow := by
      rw [pyget_eq_getElem? hr0 (by omega), hrow]
    have hget2 : pyget tileRow (p.col + bc) = some (some tilep) := by
      rw [pyget_eq_getElem? hc0 (by omega), hcol]
    have hset1 : pyset tileRow (p.col + bc)
        (some { blocks := some (stackp ++ [⟨block, idx⟩]) }) =
        some (tileRow.set (p.col + bc).toNat
          (some { blocks := some (stackp ++ [⟨block, idx⟩]) })) :=
      pyset_eq_set hc0 (by omega) _
    have hset2 : pyset tiles (p.row + br)
        (tileRow.set (p.col + bc).toNat
          (some { blocks := some (stackp ++ [⟨block, idx⟩]) })) =
        some (tiles.set (p.row + br).toNat (tileRow.set (p.col + bc).toNat
          (some { blocks := some (stackp ++ [⟨block, idx⟩]) }))) :=
      pyset_eq_set hr0 (by omega) _
    have hlenrow : ∀ tr, tiles[(p.row + br).toNat]? = some tr →
        (tileRow.set (p.col + bc).toNat
          (some { blocks := some (stackp ++ [⟨block, idx⟩]) })).length = tr.length := by
      intro tr htr
      rw [hrow] at htr
      cases htr
      simp
    have hlen2 : (tiles.set (p.row + br).toNat (tileRow.set (p.col + bc).toNat
        (some { blocks := some (stackp ++ [⟨block, idx⟩]) }))).length = tiles.length := by
      simp
    have hwidth2 : widthG (tiles.set (p.row + br).toNat (tileRow.set (p.col + bc).toNat
        (some { blocks := some (stackp ++ [⟨block, idx⟩]) }))) = widthG tiles :=
      widthG_set hlenrow
    have hrect2 : RectG (tiles.set (p.row + br).toNat (tileRow.set (p.col + bc).toNat
        (some { blocks := some (stackp ++ [⟨block, idx⟩]) }))) :=
      rectG_set hrect hlenrow hrn
    have hcastc : (((p.col + bc).toNat : Int)) = p.col + bc := by omega
    have hcastr : (((p.row + br).toNat : Int)) = p.row + br := by omega
    have hself : cellAtG (tiles.set (p.row + br).toNat (tileRow.set (p.col + bc).toNat
        (some { blocks := some (stackp ++ [⟨block, idx⟩]) }))) (p.col + bc) (p.row + br) =
        some { blocks := some (stackp ++ [⟨block, idx⟩]) } := by
      have h := cellAtG_set_self hrow hcn
        (some { blocks := some (stackp ++ [⟨block, idx⟩]) })
      rw [hcastc, hcastr] at h
      exact h
    have hframe1 : ∀ c r : Int, ¬(c = p.col + bc ∧ r = p.row + br) →
        cellAtG (tiles.set (p.row + br).toNat (tileRow.set (p.col + bc).toNat
          (some { blocks := some (stackp ++ [⟨block, idx⟩]) }))) c r = cellAtG tiles c r := by
      intro c r hne
      apply cellAtG_set_frame hrow
      rw [hcastc, hcastr]
      exact hne
    have hpair2 := List.pairwise_cons.mp hpair
    have hdiff : ∀ q ∈ rest, ¬(q.col + bc = p.col + bc ∧ q.row + br = p.row + br) := by
      rintro q hq ⟨h1, h2⟩
      refine hpair2.1 q hq ?_
      have e1 : p.col = q.col := by omega
      have e2 : p.row = q.row := by omega
      rw [e1, e2]
    have hdiff2 : ∀ q ∈ rest, ¬(p.col + bc = q.col + bc ∧ p.row + br = q.row + br) := by
      rintro q hq ⟨h1, h2⟩
      exact hdiff q hq ⟨h1.symm, h2.symm⟩
    have hstacks2 : ∀ q ∈ rest, ∃ stack,
        stackAtG (tiles.set (p.row + br).toNat (tileRow.set (p.col + bc).toNat
          (some { blocks := some (stackp ++ [⟨block, idx⟩]) })))
          (q.col + bc) (q.row + br) = some stack ∧
        (stack.length : Int) = q.altitude + ba := by
      intro q hq
      obtain ⟨s, hs, hl⟩ := hstacks q (List.mem_cons_of_mem _ hq)
      exact ⟨s, (stackAtG_congr (hframe1 _ _ (hdiff q hq))).trans hs, hl⟩
    obtain ⟨tiles3, hloop, hrect3, hlen3, hwidth3, htouch3, hframe3⟩ :=
      ih (tiles.set (p.row + br).toNat (tileRow.set (p.col + bc).toNat
        (some { blocks := some (stackp ++ [⟨block, idx⟩]) })))
        block (idx + 1) bc br ba hrect2 hstacks2 hpair2.2
    refine ⟨tiles3, ?_, hrect3, hlen3.trans hlen2, hwidth3.trans hwidth2, ?_, ?_⟩
    · simp only [City.addLoop, hget1, hget2, hblocksp, hset1, hset2]
      exact hloop
    · intro k q hk
      rcases k with - | k
      · have hq : p = q := by simpa using hk
        subst hq
        refine ⟨stackp, hsp, hlenp, ?_⟩
        have hstep : stackAtG tiles3 (p.col + bc) (p.row + br) =
            stackAtG (tiles.set (p.row + br).toNat (tileRow.set (p.col + bc).toNat
              (some { blocks := some (stackp ++ [⟨block, idx⟩]) })))
              (p.col + bc) (p.row + br) :=
          stackAtG_congr (hframe3 _ _ hdiff2)
        rw [hstep, stackAtG, hself]
        simp
      · have hk' : rest[k]? = some q := by simpa using hk
        have hqmem : q ∈ rest := by
          obtain ⟨hlt, hh⟩ := List.getElem?_eq_some_iff.mp hk'
          rw [← hh]
          exact List.getElem_mem hlt
        obtain ⟨s, hs2, hl2, hs3⟩ := htouch3 k q hk'
        refine ⟨s, ?_, hl2, ?_⟩
        · rw [← stackAtG_congr (hframe1 _ _ (hdiff q hqmem))]
          exact hs2
        · rw [show idx + (k + 1) = idx + 1 + k from by omega]
          exact hs3
    · intro c r hall
      rw [hframe3 c r (fun q hq => hall q (List.mem_cons_of_mem _ hq)),
        hframe1 c r (hall p (List.mem_cons_self p rest))]

theorem valid_part_iff (city : City) (hrect : Rect city)
    (base_col base_row base_altitude : Int) (part : BlockPart) :
    City.valid_part city base_col base_row base_altitude part = true ↔
      (0 ≤ part.row + base_row ∧ part.row + base_row < (city.tiles.length : Int) ∧
       0 ≤ part.col + base_col ∧ part.col + base_col < (city.width : Int) ∧
       ∃ stack, stackAt city (part.col + base_col) (part.row + base_row) = some stack ∧
         part.altitude + base_altitude = (stack.length : Int)) := by
  unfold City.valid_part
  by_cases h1 : part.row + base_row < 0 ∨ (city.tiles.length : Int) ≤ part.row + base_row
  · rw [if_pos h1]
    simp only [Bool.false_eq_true, false_iff]
    rintro ⟨hA, hB, -⟩
    omega
  · rw [if_neg h1]
    push_neg at h1
    obtain ⟨hr0, hr1⟩ := h1
    by_cases h2 : part.col + base_col < 0 ∨ (city.width : Int) ≤ part.col + base_col
    · rw [if_pos h2]
      simp only [Bool.false_eq_true, false_iff]
      rintro ⟨-, -, hC, hD, -⟩
      omega
    · rw [if_neg h2]
      push_neg at h2
      obtain ⟨hc0, hc1⟩ := h2
      have hrn : (part.row + base_row).toNat < city.tiles.length := by omega
      have hrowEq : city.tiles[(part.row + base_row).toNat]? =
          some (city.tiles[(part.row + base_row).toNat]) :=
        List.getElem?_eq_getElem hrn
      have hlen : (city.tiles[(part.row + base_row).toNat]).length = city.width := by
        rw [City.width]
        exact hrect _ (List.getElem_mem hrn)
      have hcn : (part.col + base_col).toNat < (city.tiles[(part.row + base_row).toNat]).length := by
        omega
      have hcolEq : (city.tiles[(part.row + base_row).toNat])[(part.col + base_col).toNat]? =
          some ((city.tiles[(part.row + base_row).toNat])[(part.col + base_col).toNat]) :=
        List.getElem?_eq_getElem hcn
      rw [pyget_eq_getElem? hr0 hr1, hrowEq]
      dsimp only
      rw [pyget_eq_getElem? hc0 (by omega : part.col + base_col <
        ((city.tiles[(part.row + base_row).toNat]).length : Int)), hcolEq]
      have hstack : stackAt city (part.col + base_col) (part.row + base_row) =
          ((city.tiles[(part.row + base_row).toNat])[(part.col + base_col).toNat]).bind
            Tile.blocks := by
        rw [stackAt, stackAtG, cellAtG, if_pos ⟨hr0, hc0⟩, hrowEq]
        dsimp only
        rw [hcolEq]
        rfl
      rcases hcell : (city.tiles[(part.row + base_row).toNat])[(part.col + base_col).toNat] with
        - | tile
      · rw [hcell] at hstack
        show (false = true) ↔ _
        simp only [Bool.false_eq_true, false_iff]
        rintro ⟨-, -, -, -, stack, hs, -⟩
        rw [hstack] at hs
        simp at hs
      · rw [hcell] at hstack
        replace hstack : stackAt city (part.col + base_col) (part.row + base_row) =
          tile.blocks := hstack
        show (match tile.blocks with
          | none => false
          | some stack => part.altitude + base_altitude == (stack.length : Int)) = true ↔ _
        rcases hblocks : tile.blocks with - | stack
        · rw [hblocks] at hstack
          simp only [Bool.false_eq_true, false_iff]
          rintro ⟨-, -, -, -, stack, hs, -⟩
          rw [hstack] at hs
          simp at hs
        · rw [hblocks] at hstack
          simp only [beq_iff_eq]
          constructor
          · intro h
            exact ⟨hr0, hr1, hc0, hc1, stack, by rw [hstack], h⟩
          · rintro ⟨-, -, -, -, stack', hs, h⟩
            rw [hstack] at hs
            cases hs
            exact h

theorem removeCheck_all (parts : List BlockPart) :
    ∀ (tiles : Grid) (base_col base_row base_altitude : Int),
      (∀ p ∈ parts, ∃ stack,
        stackAtG tiles (p.col + base_col) (p.row + base_row) = some stack ∧
        (stack.length : Int) = p.altitude + base_altitude + 1) →
      City.removeCheck tiles parts base_col base_row base_altitude =
        some (some (parts.map fun p => (p.col + base_col, p.row + base_row))) := by
  induction parts with
  | nil => intro tiles bc br ba h; rfl
  | cons p rest ih =>
    intro tiles bc br ba h
    obtain ⟨stack, hs, hl⟩ := h p (List.mem_cons_self p rest)
    obtain ⟨tile, hcell, hblocks⟩ := stackAtG_some_elim hs
    obtain ⟨hc0, hr0, tileRow, hrow, hcol⟩ := cellAtG_some_elim hcell
    have hrn : (p.row + br).toNat < tiles.length := (List.getElem?_eq_some_iff.mp hrow).1
    have hcn : (p.col + bc).toNat < tileRow.length := (List.getElem?_eq_some_iff.mp hcol).1
    have hget1 : pyget tiles (p.row + br) = some tileRow := by
      rw [pyget_eq_getElem? hr0 (by omega), hrow]
    have hget2 : pyget tileRow (p.col + bc) = some (some tile) := by
      rw [pyget_eq_getElem? hc0 (by omega), hcol]
    simp only [City.removeCheck, hget1, hget2, hblocks, List.map_cons,
      ih tiles bc br ba (fun q hq => h q (List.mem_cons_of_mem _ hq))]
    rw [if_neg (show ¬((stack.length : Int) ≠ p.altitude + ba + 1) from fun hne => hne hl)]

theorem removeCheck_fail (parts : List BlockPart) :
    ∀ (tiles : Grid) (base_col base_row base_altitude : Int),
      (∀ p ∈ parts, ∃ stack,
        stackAtG tiles (p.col + base_col) (p.row + base_row) = some stack) →
      (∃ p ∈ parts, ∀ stack,
        stackAtG tiles (p.col + base_col) (p.row + base_row) = some stack →
        (stack.length : Int) ≠ p.altitude + base_altitude + 1) →
      City.removeCheck tiles parts base_col base_row base_altitude = some none := by
  induction parts with
  | nil =>
    intro tiles bc br ba h hex
    obtain ⟨p, hp, -⟩ := hex
    exact absurd hp (List.not_mem_nil p)
  | cons p rest ih =>
    intro tiles bc br ba hcells hex
    obtain ⟨stack, hs⟩ := hcells p (List.mem_cons_self p rest)
    obtain ⟨tile, hcell, hblocks⟩ := stackAtG_some_elim hs
    obtain ⟨hc0, hr0, tileRow, hrow, hcol⟩ := cellAtG_some_elim hcell
    have hrn : (p.row + br).toNat < tiles.length := (List.getElem?_eq_some_iff.mp hrow).1
    have hcn : (p.col + bc).toNat < tileRow.length := (List.getElem?_eq_some_iff.mp hcol).1
    have hget1 : pyget tiles (p.row + br) = some tileRow := by
      rw [pyget_eq_getElem? hr0 (by omega), hrow]
    have hget2 : pyget tileRow (p.col + bc) = some (some tile) := by
      rw [pyget_eq_getElem? hc0 (by omega), hcol]
    by_cases hc : (stack.length : Int) = p.altitude + ba + 1
    · have hex' : ∃ q ∈ rest, ∀ stack2,
          stackAtG tiles (q.col + bc) (q.row + br) = some stack2 →
          (stack2.length : Int) ≠ q.altitude + ba + 1 := by
        obtain ⟨q, hq, hfail⟩ := hex
        rcases List.mem_cons.mp hq with rfl | hq2
        · exact absurd hc (hfail stack hs)
        · exact ⟨q, hq2, hfail⟩
      simp only [City.removeCheck, hget1, hget2, hblocks,
        ih tiles bc br ba (fun q hq => hcells q (List.mem_cons_of_mem _ hq)) hex']
      rw [if_neg (show ¬((stack.length : Int) ≠ p.altitude + ba + 1) from fun hne => hne hc)]
    · simp only [City.removeCheck, hget1, hget2, hblocks]
      rw [if_pos hc]

theorem popAll_spec (locs : List (Int × Int)) :
    ∀ tiles : Grid, RectG tiles →
      (∀ l ∈ locs, ∃ tile stack, cellAtG tiles l.1 l.2 = some tile ∧
        tile.blocks = some stack ∧ stack ≠ []) →
      locs.Pairwise (fun a b => a ≠ b) →
      ∃ tiles2, popAll tiles locs = some tiles2 ∧
        RectG tiles2 ∧ tiles2.length = tiles.length ∧ widthG tiles2 = widthG tiles ∧
        (∀ l ∈ locs, ∀ stack, stackAtG tiles l.1 l.2 = some stack →
          cellAtG tiles2 l.1 l.2 = some { blocks := some stack.dropLast }) ∧
        (∀ c r : Int, (∀ l ∈ locs, ¬(c = l.1 ∧ r = l.2)) →
          cellAtG tiles2 c r = cellAtG tiles c r) := by
  induction locs with
  | nil =>
    intro tiles hrect hstacks hpair
    refine ⟨tiles, rfl, hrect, rfl, rfl, ?_, ?_⟩
    · intro l hl
      cases hl
    · intro c r h
      rfl
  | cons loc rest ih =>
    intro tiles hrect hstacks hpair
    obtain ⟨tile, stack, hcell, hblocks, hne⟩ := hstacks loc (List.mem_cons_self loc rest)
    obtain ⟨hc0, hr0, tileRow, hrow, hcol⟩ := cellAtG_some_elim hcell
    have hrn : loc.2.toNat < tiles.length := (List.getElem?_eq_some_iff.mp hrow).1
    have hcn : loc.1.toNat < tileRow.length := (List.getElem?_eq_some_iff.mp hcol).1
    have hget1 : pyget tiles loc.2 = some tileRow := by
      rw [pyget_eq_getElem? hr0 (by omega), hrow]
    have hget2 : pyget tileRow loc.1 = some (some tile) := by
      rw [pyget_eq_getElem? hc0 (by omega), hcol]
    have hset1 : pyset tileRow loc.1 (some { blocks := some stack.dropLast }) =
        some (tileRow.set loc.1.toNat (some { blocks := some stack.dropLast })) :=
      pyset_eq_set hc0 (by omega) _
    have hset2 : pyset tiles loc.2
        (tileRow.set loc.1.toNat (some { blocks := some stack.dropLast })) =
        some (tiles.set loc.2.toNat
          (tileRow.set loc.1.toNat (some { blocks := some stack.dropLast }))) :=
      pyset_eq_set hr0 (by omega) _
    have hlenrow : ∀ tr, tiles[loc.2.toNat]? = some tr →
        (tileRow.set loc.1.toNat (some { blocks := some stack.dropLast })).length =
          tr.length := by
      intro tr htr
      rw [hrow] at htr
      cases htr
      simp
    have hcastc : ((loc.1.toNat : Int)) = loc.1 := by omega
    have hcastr : ((loc.2.toNat : Int)) = loc.2 := by omega
    have hself : cellAtG (tiles.set loc.2.toNat
        (tileRow.set loc.1.toNat (some { blocks := some stack.dropLast }))) loc.1 loc.2 =
        some { blocks := some stack.dropLast } := by
      have h := cellAtG_set_self hrow hcn (some { blocks := some stack.dropLast })
      rw [hcastc, hcastr] at h
      exact h
    have hframe1 : ∀ c r : Int, ¬(c = loc.1 ∧ r = loc.2) →
        cellAtG (tiles.set loc.2.toNat
          (tileRow.set loc.1.toNat (some { blocks := some stack.dropLast }))) c r =
        cellAtG tiles c r := by
      intro c r hne2
      apply cellAtG_set_frame hrow
      rw [hcastc, hcastr]
      exact hne2
    have hpair2 := List.pairwise_cons.mp hpair
    have hdiff : ∀ l ∈ rest, ¬(l.1 = loc.1 ∧ l.2 = loc.2) := by
      rintro l hl ⟨h1, h2⟩
      exact hpair2.1 l hl (Prod.ext h1.symm h2.symm)
    have hstacks2 : ∀ l ∈ rest, ∃ tile2 stack2,
        cellAtG (tiles.set loc.2.toNat
          (tileRow.set loc.1.toNat (some { blocks := some stack.dropLast }))) l.1 l.2 =
          some tile2 ∧ tile2.blocks = some stack2 ∧ stack2 ≠ [] := by
      intro l hl
      obtain ⟨t2, s2, hcl, hbl, hnel⟩ := hstacks l (List.mem_cons_of_mem _ hl)
      exact ⟨t2, s2, (hframe1 _ _ (hdiff l hl)).trans hcl, hbl, hnel⟩
    have hrect2 : RectG (tiles.set loc.2.toNat
        (tileRow.set loc.1.toNat (some { blocks := some stack.dropLast }))) :=
      rectG_set hrect hlenrow hrn
    obtain ⟨tiles3, hpop, hrect3, hlen3, hwidth3, htouch3, hframe3⟩ :=
      ih (tiles.set loc.2.toNat
        (tileRow.set loc.1.toNat (some { blocks := some stack.dropLast })))
        hrect2 hstacks2 hpair2.2
    refine ⟨tiles3, ?_, hrect3, hlen3.trans (by simp),
      hwidth3.trans (widthG_set hlenrow), ?_, ?_⟩
    · simp only [popAll, popStack, hget1, hget2, hblocks,
        if_neg (by simp [hne] : ¬stack.isEmpty = true), hset1, hset2]
      exact hpop
    · intro l hl stack2 hstack2
      rcases List.mem_cons.mp hl with rfl | hl2
      · have hstack0 : stackAtG tiles l.1 l.2 = some stack := by
          rw [stackAtG, hcell]
          exact hblocks
        rw [hstack0, Option.some.injEq] at hstack2
        subst hstack2
        have hdiff2 : ∀ l2 ∈ rest, ¬(l.1 = l2.1 ∧ l.2 = l2.2) := by
          rintro l2 hl2 ⟨h1, h2⟩
          exact hdiff l2 hl2 ⟨h1.symm, h2.symm⟩
        rw [hframe3 l.1 l.2 hdiff2]
        exact hself
      · have heq := stackAtG_congr (hframe1 l.1 l.2 (hdiff l hl2))
        rw [← heq] at hstack2
        exact htouch3 l hl2 stack2 hstack2
    · intro c r hall
      rw [hframe3 c r (fun l hl => hall l (List.mem_cons_of_mem _ hl)),
        hframe1 c r (hall loc (List.mem_cons_self loc rest))]

theorem remove_success (city : City) (block : Block) (base_col base_row base_altitude : Int)
    (hrect : Rect city)
    (hcol : block.col = some base_col) (hrow : block.row = some base_row)
    (halt : block.altitude = some base_altitude)
    (hcells : ∀ p ∈ block.blocktype.footprint, ∃ stack,
      stackAtG city.tiles (p.col + base_col) (p.row + base_row) = some stack ∧
      (stack.length : Int) = p.altitude + base_altitude + 1)
    (hpos : ∀ p ∈ block.blocktype.footprint, 0 ≤ p.altitude + base_altitude)
    (hdist : PartsDistinct block.blocktype.footprint) :
    ∃ tiles2, City.remove city block = some (true, { city with tiles := tiles2 },
        { block with col := none, row := none, altitude := none }) ∧
      RectG tiles2 ∧ tiles2.length = city.tiles.length ∧
      widthG tiles2 = widthG city.tiles ∧
      (∀ p ∈ block.blocktype.footprint, ∀ stack,
        stackAtG city.tiles (p.col + base_col) (p.row + base_row) = some stack →
        cellAtG tiles2 (p.col + base_col) (p.row + base_row) =
          some { blocks := some stack.dropLast }) ∧
      (∀ c r : Int, (∀ p ∈ block.blocktype.footprint,
          ¬(c = p.col + base_col ∧ r = p.row + base_row)) →
        cellAtG tiles2 c r = cellAtG city.tiles c r) := by
  have hcheck := removeCheck_all block.blocktype.footprint city.tiles
    base_col base_row base_altitude hcells
  have hloc : ∀ l ∈ block.blocktype.footprint.map
      (fun p => (p.col + base_col, p.row + base_row)),
      ∃ tile stack, cellAtG city.tiles l.1 l.2 = some tile ∧
        tile.blocks = some stack ∧ stack ≠ [] := by
    intro l hl
    obtain ⟨p, hp, rfl⟩ := List.mem_map.mp hl
    obtain ⟨stack, hs, hlen⟩ := hcells p hp
    obtain ⟨tile, hcell, hblocks⟩ := stackAtG_some_elim hs
    refine ⟨tile, stack, hcell, hblocks, ?_⟩
    have hge := hpos p hp
    intro hempty
    rw [hempty] at hlen
    simp at hlen
    omega
  have hpairloc : (block.blocktype.footprint.map
      (fun p => (p.col + base_col, p.row + base_row))).Pairwise (fun a b => a ≠ b) := by
    rw [List.pairwise_map]
    refine List.Pairwise.imp ?_ hdist
    intro p q hneq heq
    apply hneq
    obtain ⟨e1, e2⟩ := Prod.mk.injEq .. |>.mp heq
    have e1' : p.col = q.col := by omega
    have e2' : p.row = q.row := by omega
    rw [e1', e2']
  obtain ⟨tiles2, hpop, hrect2, hlen2, hwidth2, htouch, hframe⟩ :=
    popAll_spec _ city.tiles hrect hloc hpairloc
  refine ⟨tiles2, ?_, hrect2, hlen2, hwidth2, ?_, ?_⟩
  · simp only [City.remove, hcol, hrow, halt, hcheck, hpop]
  · intro p hp stack hs
    exact htouch _ (List.mem_map.mpr ⟨p, hp, rfl⟩) stack hs
  · intro c r hall
    apply hframe
    intro l hl
    obtain ⟨p, hp, rfl⟩ := List.mem_map.mp hl
    exact hall p hp

theorem remove_fail (city : City) (block : Block) (base_col base_row base_altitude : Int)
    (hcol : block.col = some base_col) (hrow : block.row = some base_row)
    (halt : block.altitude = some base_altitude)
    (hcheck : City.removeCheck city.tiles block.blocktype.footprint
      base_col base_row base_altitude = some none) :
    City.remove city block = some (false, city, block) := by
  simp only [City.remove, hcol, hrow, halt, hcheck]

theorem goodStack_iff {stack : List TileBlock} :
    GoodStack stack ↔ ∀ i tb, stack[i]? = some tb → GoodEntry tb i := by
  unfold GoodStack
  constructor
  · intro h i tb htb
    exact h (i, tb) (List.mem_enum_iff_getElem?.mpr htb)
  · intro h p hp
    exact h p.1 p.2 (List.mem_enum_iff_getElem?.mp hp)

theorem goodStack_dropLast {stack : List TileBlock} (h : GoodStack stack) :
    GoodStack stack.dropLast := by
  rw [goodStack_iff] at h ⊢
  intro i tb htb
  rw [List.getElem?_dropLast] at htb
  split_ifs at htb with hlt
  exact h i tb htb

theorem goodStack_append {stack : List TileBlock} {tb : TileBlock}
    (h : GoodStack stack) (hgood : GoodEntry tb stack.length) :
    GoodStack (stack ++ [tb]) := by
  rw [goodStack_iff] at h ⊢
  intro i tb2 htb
  by_cases hi : i < stack.length
  · rw [List.getElem?_append_left hi] at htb
    exact h i tb2 htb
  · rw [List.getElem?_append_right (by omega)] at htb
    have hlt : i - stack.length < 1 := by
      have := (List.getElem?_eq_some_iff.mp htb).1
      simpa using this
    have hi2 : i = stack.length := by omega
    subst hi2
    simp only [Nat.sub_self] at htb
    have : tb2 = tb := by simpa using htb.symm
    subst this
    exact hgood

theorem cellOk_of_blocks {ocell : Option Tile} {tile : Tile} {stack : List TileBlock}
    (he : ocell = some tile) (hb : tile.blocks = some stack) (hg : GoodStack stack) :
    CellOk ocell := by
  subst he
  unfold CellOk
  have : (some tile).bind Tile.blocks = some stack := hb
  rw [this]
  exact hg

theorem cellOk_blocks_elim {ocell : Option Tile} {tile : Tile} {stack : List TileBlock}
    (h : CellOk ocell) (he : ocell = some tile) (hb : tile.blocks = some stack) :
    GoodStack stack := by
  subst he
  unfold CellOk at h
  have e : (some tile).bind Tile.blocks = some stack := hb
  rw [e] at h
  exact h

theorem invG_cellwise {tiles : Grid} (h : InvG tiles) (c r : Int) :
    CellOk (cellAtG tiles c r) := by
  rcases hc : cellAtG tiles c r with - | tile
  · exact trivial
  · obtain ⟨-, -, tileRow, hrowq, hcolq⟩ := cellAtG_some_elim hc
    have h1 : tileRow ∈ tiles := by
      obtain ⟨hlt, hh⟩ := List.getElem?_eq_some_iff.mp hrowq
      rw [← hh]
      exact List.getElem_mem hlt
    have h2 : some tile ∈ tileRow := by
      obtain ⟨hlt, hh⟩ := List.getElem?_eq_some_iff.mp hcolq
      rw [← hh]
      exact List.getElem_mem hlt
    exact h tileRow h1 (some tile) h2

theorem invG_of_cellwise {tiles : Grid} (h : ∀ c r : Int, CellOk (cellAtG tiles c r)) :
    InvG tiles := by
  intro tileRow hmem ocell hcell
  obtain ⟨rn, hrn, hrowe⟩ := List.getElem_of_mem hmem
  obtain ⟨cn, hcn, hcole⟩ := List.getElem_of_mem hcell
  have hc := h (cn : Int) (rn : Int)
  rw [cellAtG, if_pos ⟨Int.natCast_nonneg rn, Int.natCast_nonneg cn⟩,
    Int.toNat_natCast, Int.toNat_natCast, List.getElem?_eq_getElem hrn, hrowe] at hc
  replace hc : CellOk ((tileRow[cn]?).join) := hc
  rw [List.getElem?_eq_getElem hcn, hcole] at hc
  exact hc

theorem loaded_invG {city : City} (h : Loaded city) : InvG city.tiles := by
  intro tileRow hmem ocell hcell
  have hl := h tileRow hmem ocell hcell
  unfold CellOk
  rcases hb : ocell.bind Tile.blocks with - | stack
  · exact trivial
  · rw [hb] at hl
    show GoodStack stack
    intro p hp
    obtain ⟨hidx, haltp, hfp⟩ := hl p hp
    unfold GoodEntry
    rw [haltp, hidx, hfp]
    simp

theorem pyget_some_elim {α : Type} {l : List α} {i : Int} {a : α}
    (h : pyget l i = some a) :
    ∃ j, pyidx l.length i = some j ∧ l[j]? = some a ∧ j < l.length := by
  rw [pyget] at h
  rcases hj : pyidx l.length i with - | j
  · rw [hj] at h
    cases h
  · rw [hj] at h
    replace h : l[j]? = some a := h
    exact ⟨j, rfl, h, (List.getElem?_eq_some_iff.mp h).1⟩

theorem popStack_effect {tiles : Grid} {loc : Int × Int} {tiles2 : Grid}
    (h : popStack tiles loc = some tiles2) :
    ∃ (rn cn : Nat) (tileRow : List (Option Tile)) (tile : Tile) (stack : List TileBlock),
      tiles[rn]? = some tileRow ∧ tileRow[cn]? = some (some tile) ∧
      tile.blocks = some stack ∧
      tiles2 = tiles.set rn (tileRow.set cn (some { blocks := some stack.dropLast })) := by
  rw [popStack] at h
  rcases hg1 : pyget tiles loc.2 with - | tileRow
  · rw [hg1] at h; cases h
  · rw [hg1] at h
    dsimp only at h
    obtain ⟨rn, hrn, hrowq, -⟩ := pyget_some_elim hg1
    rcases hg2 : pyget tileRow loc.1 with - | ocell
    · rw [hg2] at h; cases h
    · rw [hg2] at h
      obtain ⟨cn, hcn, hcolq, hcnlt⟩ := pyget_some_elim hg2
      rcases ocell with - | tile
      · cases h
      · dsimp only at h
        rcases hb : tile.blocks with - | stack
        · rw [hb] at h; cases h
        · rw [hb] at h
          dsimp only at h
          rcases hemp : stack.isEmpty with - | -
          · have hset1 : pyset tileRow loc.1 (some { blocks := some stack.dropLast }) =
                some (tileRow.set cn (some { blocks := some stack.dropLast })) := by
              rw [pyset, hcn]
              rfl
            have hset2 : pyset tiles loc.2
                (tileRow.set cn (some { blocks := some stack.dropLast })) =
                some (tiles.set rn (tileRow.set cn
                  (some { blocks := some stack.dropLast }))) := by
              rw [pyset, hrn]
              rfl
            rw [if_neg (by rw [hemp]; exact Bool.false_ne_true), hset1] at h
            dsimp only at h
            rw [hset2] at h
            dsimp only at h
            cases h
            exact ⟨rn, cn, tileRow, tile, stack, hrowq, hcolq, hb, rfl⟩
          · rw [if_pos hemp] at h
            cases h

theorem popStack_preserves {tiles : Grid} {loc : Int × Int} {tiles2 : Grid}
    (h : popStack tiles loc = some tiles2) :
    (InvG tiles → InvG tiles2) ∧ (RectG tiles → RectG tiles2) := by
  obtain ⟨rn, cn, tileRow, tile, stack, hrowq, hcolq, hb, rfl⟩ := popStack_effect h
  have hrmem : tileRow ∈ tiles := by
    obtain ⟨hlt, hh⟩ := List.getElem?_eq_some_iff.mp hrowq
    rw [← hh]
    exact List.getElem_mem hlt
  have hcmem : some tile ∈ tileRow := by
    obtain ⟨hlt, hh⟩ := List.getElem?_eq_some_iff.mp hcolq
    rw [← hh]
    exact List.getElem_mem hlt
  constructor
  · intro hinv tileRow2 hmem ocell hcell
    rcases List.mem_or_eq_of_mem_set hmem with hmem2 | rfl
    · exact hinv _ hmem2 _ hcell
    · rcases List.mem_or_eq_of_mem_set hcell with hcell2 | rfl
      · exact hinv tileRow hrmem _ hcell2
      · have hgood : GoodStack stack :=
          cellOk_blocks_elim (hinv tileRow hrmem (some tile) hcmem) rfl hb
        exact cellOk_of_blocks rfl rfl (goodStack_dropLast hgood)
  · intro hrect
    exact rectG_set hrect
      (by
        intro tr htr
        rw [hrowq] at htr
        cases htr
        simp)
      (List.getElem?_eq_some_iff.mp hrowq).1

theorem popAll_preserves (locs : List (Int × Int)) :
    ∀ {tiles tiles2 : Grid}, popAll tiles locs = some tiles2 →
      (InvG tiles → InvG tiles2) ∧ (RectG tiles → RectG tiles2) := by
  induction locs with
  | nil =>
    intro tiles tiles2 h
    cases h
    exact ⟨id, id⟩
  | cons loc rest ih =>
    intro tiles tiles2 h
    rw [popAll] at h
    rcases hp : popStack tiles loc with - | tilesMid
    · rw [hp] at h; cases h
    · rw [hp] at h
      replace h : popAll tilesMid rest = some tiles2 := h
      obtain ⟨hinv1, hrect1⟩ := popStack_preserves hp
      obtain ⟨hinv2, hrect2⟩ := ih h
      exact ⟨fun hi => hinv2 (hinv1 hi), fun hr => hrect2 (hrect1 hr)⟩

theorem remove_cases {city : City} {block : Block} {res : Bool} {city2 : City}
    {block2 : Block} (h : City.remove city block = some (res, city2, block2)) :
    city2 = city ∨
    ∃ locs tiles2, popAll city.tiles locs = some tiles2 ∧
      city2 = { city with tiles := tiles2 } := by
  rw [City.remove] at h
  rcases hbc : block.col with - | bc <;> rw [hbc] at h
  · cases h
  rcases hbr : block.row with - | br <;> rw [hbr] at h
  · cases h
  rcases hba : block.altitude with - | ba <;> rw [hba] at h
  · cases h
  dsimp only at h
  rcases hcheck : City.removeCheck city.tiles block.blocktype.footprint bc br ba with
    - | ores <;> rw [hcheck] at h
  · cases h
  rcases ores with - | locs
  · dsimp only at h
    rw [Option.some.injEq, Prod.mk.injEq] at h
    obtain ⟨-, h2⟩ := h
    rw [Prod.mk.injEq] at h2
    exact Or.inl h2.1.symm
  · dsimp only at h
    rcases hpop : popAll city.tiles locs with - | tiles2 <;> rw [hpop] at h
    · cases h
    · dsimp only at h
      rw [Option.some.injEq, Prod.mk.injEq] at h
      obtain ⟨-, h2⟩ := h
      rw [Prod.mk.injEq] at h2
      exact Or.inr ⟨locs, tiles2, hpop, h2.1.symm⟩

theorem add_spec (city : City) (block : Block) (base_col base_row : Int)
    (astack : List TileBlock) (hrect : Rect city)
    (hanchor : stackAt city base_col base_row = some astack)
    (hvalid : City.valid_drop_spot city base_col base_row (astack.length : Int) block = true)
    (hdist : PartsDistinct block.blocktype.footprint) :
    ∃ tiles2, City.add city base_col base_row block =
        some ({ city with tiles := tiles2 },
          { block with
            col := some base_col
            row := some base_row
            altitude := some (astack.length : Int)
            x := (city.tile_to_screen base_col base_row (astack.length : Int)).1
            y := (city.tile_to_screen base_col base_row (astack.length : Int)).2 }) ∧
      RectG tiles2 ∧ tiles2.length = city.tiles.length ∧
      widthG tiles2 = widthG city.tiles ∧
      AddResult city base_col base_row (astack.length : Int) block
        { city with tiles := tiles2 }
        { block with
          col := some base_col
          row := some base_row
          altitude := some (astack.length : Int)
          x := (city.tile_to_screen base_col base_row (astack.length : Int)).1
          y := (city.tile_to_screen base_col base_row (astack.length : Int)).2 } := by
  obtain ⟨atile, hacell, hablocks⟩ := stackAtG_some_elim hanchor
  obtain ⟨hc0A, hr0A, tileRowA, hrowA, hcolA⟩ := cellAtG_some_elim hacell
  have hrnA : base_row.toNat < city.tiles.length := (List.getElem?_eq_some_iff.mp hrowA).1
  have hcnA : base_col.toNat < tileRowA.length := (List.getElem?_eq_some_iff.mp hcolA).1
  have hget1 : pyget city.tiles base_row = some tileRowA := by
    rw [pyget_eq_getElem? hr0A (by omega), hrowA]
  have hget2 : pyget tileRowA base_col = some (some atile) := by
    rw [pyget_eq_getElem? hc0A (by omega), hcolA]
  have hparts : ∀ p ∈ block.blocktype.footprint, ∃ stack,
      stackAtG city.tiles (p.col + base_col) (p.row + base_row) = some stack ∧
      (stack.length : Int) = p.altitude + (astack.length : Int) := by
    intro p hp
    have h := (valid_part_iff city hrect base_col base_row (astack.length : Int) p).mp
      ((List.all_eq_true.mp hvalid) p hp)
    obtain ⟨-, -, -, -, stack, hs, hl⟩ := h
    exact ⟨stack, hs, hl.symm⟩
  obtain ⟨tiles2, hloop, hrect2, hlen2, hwidth2, htouch, hframe⟩ :=
    addLoop_spec block.blocktype.footprint city.tiles
      { block with
        col := some base_col
        row := some base_row
        altitude := some (astack.length : Int)
        x := (city.tile_to_screen base_col base_row (astack.length : Int)).1
        y := (city.tile_to_screen base_col base_row (astack.length : Int)).2 }
      0 base_col base_row (astack.length : Int) hrect hparts hdist
  refine ⟨tiles2, ?_, hrect2, hlen2, hwidth2, ?_⟩
  · simp only [City.add, hget1, hget2, hablocks, hloop]
  · refine ⟨rfl, rfl, rfl, rfl, ?_, ?_⟩
    · intro idx part hidx
      obtain ⟨stack, hs, hl, hs2⟩ := htouch idx part hidx
      simp only [Nat.zero_add] at hs2
      exact ⟨stack, hs, hl, hs2⟩
    · intro c r h
      exact hframe c r h

theorem invG_add {city : City} {block : Block} {base_col base_row : Int}
    {astack : List TileBlock} {city2 : City} {block2 : Block}
    (hrect : Rect city)
    (hanchor : stackAt city base_col base_row = some astack)
    (hvalid : City.valid_drop_spot city base_col base_row (astack.length : Int) block = true)
    (hdist : PartsDistinct block.blocktype.footprint)
    (hadd : City.add city base_col base_row block = some (city2, block2))
    (hinv : InvG city.tiles) : InvG city2.tiles ∧ Rect city2 := by
  obtain ⟨tiles2, hadd2, hrect2, -, -, hres⟩ :=
    add_spec city block base_col base_row astack hrect hanchor hvalid hdist
  have hpair := hadd2.symm.trans hadd
  rw [Option.some.injEq, Prod.mk.injEq] at hpair
  obtain ⟨hcity, hblock⟩ := hpair
  subst hcity
  subst hblock
  refine ⟨?_, hrect2⟩
  apply invG_of_cellwise
  intro c r
  by_cases hhit : ∀ p ∈ block.blocktype.footprint,
      ¬(c = p.col + base_col ∧ r = p.row + base_row)
  · have hframe : cellAtG tiles2 c r = cellAtG city.tiles c r := hres.2.2.2.2.2 c r hhit
    rw [show cellAtG ({ city with tiles := tiles2 } : City).tiles c r =
      cellAtG city.tiles c r from hframe]
    exact invG_cellwise hinv c r
  · push_neg at hhit
    obtain ⟨p, hp, hcr⟩ := hhit
    obtain ⟨rfl, rfl⟩ := hcr
    obtain ⟨idx, hgetp⟩ : ∃ idx, block.blocktype.footprint[idx]? = some p := by
      obtain ⟨n, hn, he⟩ := List.getElem_of_mem hp
      exact ⟨n, by rw [List.getElem?_eq_getElem hn, he]⟩
    obtain ⟨stack, hsOld, hlen, hsNew⟩ := hres.2.2.2.2.1 idx p hgetp
    have hsOld2 : stackAtG city.tiles (p.col + base_col) (p.row + base_row) =
      some stack := hsOld
    obtain ⟨tileOld, hcellOld, hbOld⟩ := stackAtG_some_elim hsOld2
    have hgood : GoodStack stack :=
      cellOk_blocks_elim (invG_cellwise hinv (p.col + base_col) (p.row + base_row))
        hcellOld hbOld
    have hsNew2 : stackAtG tiles2 (p.col + base_col) (p.row + base_row) =
        some (stack ++ [⟨{ block with
          col := some base_col
          row := some base_row
          altitude := some (astack.length : Int)
          x := (city.tile_to_screen base_col base_row (astack.length : Int)).1
          y := (city.tile_to_screen base_col base_row (astack.length : Int)).2 }, idx⟩]) :=
      hsNew
    obtain ⟨tileNew, hcellNew, hbNew⟩ := stackAtG_some_elim hsNew2
    apply cellOk_of_blocks hcellNew hbNew
    apply goodStack_append hgood
    unfold GoodEntry
    have e2 : ({ block with
        col := some base_col
        row := some base_row
        altitude := some (astack.length : Int)
        x := (city.tile_to_screen base_col base_row (astack.length : Int)).1
        y := (city.tile_to_screen base_col base_row (astack.length : Int)).2 } :
        Block).blocktype.footprint[idx]? = some p := hgetp
    rw [e2]
    show (astack.length : Int) + p.altitude = (stack.length : Int)
    omega

/-- C1: `valid_drop_spot(base_col, base_row, base_altitude, block)` returns
true if and only if, for every part of the block's footprint, the absolute
cell lies within the grid bounds, the tile there exists and is buildable
(has a block stack rather than the not-buildable marker), and the cell's
altitude equals that tile's current stack length; it returns false as soon
as any part violates one of these conditions. -/
theorem C1_valid_drop_spot_characterisation (city : City) (hrect : Rect city)
    (base_col base_row base_altitude : Int) (block : Block) :
    City.valid_drop_spot city base_col base_row base_altitude block = true ↔
      SpecValid city base_col base_row base_altitude block := by
  unfold City.valid_drop_spot SpecValid
  rw [List.all_eq_true]
  constructor
  · intro h part hp
    exact (valid_part_iff city hrect base_col base_row base_altitude part).mp (h part hp)
  · intro h part hp
    exact (valid_part_iff city hrect base_col base_row base_altitude part).mpr (h part hp)

/-- Witness for C1: the characterisation applied to a concrete city and
block. -/
theorem C1_valid_drop_spot_witness :
    City.valid_drop_spot cityW 0 0 0 blockW = true ↔ SpecValid cityW 0 0 0 blockW :=
  C1_valid_drop_spot_characterisation cityW (by decide) 0 0 0 blockW

/-- C2, amended with the hypothesis that the footprint parts occupy pairwise
distinct tiles (true of every block type in the program's catalog): when
`valid_drop_spot` approves the anchor at the anchor tile's current stack
length, `add` appends for every footprint part one entry referencing the
placed block at stack position `base_altitude + part.altitude`, sets the
block's placement to `(base_col, base_row, base_altitude)`, and changes no
other tile. -/
theorem C2_add_postcondition (city : City) (block : Block) (base_col base_row : Int)
    (astack : List TileBlock) (hrect : Rect city)
    (hanchor : stackAt city base_col base_row = some astack)
    (hvalid : City.valid_drop_spot city base_col base_row (astack.length : Int) block = true)
    (hdist : PartsDistinct block.blocktype.footprint) :
    ∃ city2 block2, City.add city base_col base_row block = some (city2, block2) ∧
      AddResult city base_col base_row (astack.length : Int) block city2 block2 := by
  obtain ⟨tiles2, hadd, -, -, -, hres⟩ :=
    add_spec city block base_col base_row astack hrect hanchor hvalid hdist
  exact ⟨_, _, hadd, hres⟩

/-- Witness for C2: a concrete single-part block added to an empty tile. -/
theorem C2_add_witness :
    ∃ city2 block2, City.add cityW 0 0 blockW = some (city2, block2) ∧
      AddResult cityW 0 0 0 blockW city2 block2 := by
  have h := C2_add_postcondition cityW blockW 0 0 [] (by decide) (by decide)
    (by decide) (by decide)
  simpa using h

/-- Counterexample to C2 as stated: for a block whose footprint repeats the
same `(0,0,0)` part, `valid_drop_spot` approves the spot, yet the second
appended entry lands at stack position 1, not at
`base_altitude + part.altitude = 0`, so the claimed postcondition fails. -/
theorem C2_counterexample :
    City.valid_drop_spot cityW 0 0 0 blockDup = true ∧
    stackAt cityW 0 0 = some [] ∧
    ¬ (∃ city2 block2, City.add cityW 0 0 blockDup = some (city2, block2) ∧
        AddResult cityW 0 0 0 blockDup city2 block2) := by
  refine ⟨by decide, by decide, ?_⟩
  rintro ⟨city2, block2, hadd, hres⟩
  have hadd2 : City.add cityW 0 0 blockDup = some (cityDup2, blockDupPlaced) := by decide
  have hpair := hadd2.symm.trans hadd
  rw [Option.some.injEq, Prod.mk.injEq] at hpair
  obtain ⟨hcity, hblock⟩ := hpair
  subst hcity
  subst hblock
  obtain ⟨stack, hs0, -, hs2⟩ := hres.2.2.2.2.1 1 { col := 0, row := 0, altitude := 0 }
    (by decide)
  simp only [show ({ col := 0, row := 0, altitude := 0 } : BlockPart).col = 0 from rfl,
    show ({ col := 0, row := 0, altitude := 0 } : BlockPart).row = 0 from rfl,
    add_zero] at hs0 hs2
  have he : stack = [] := by
    have e : stackAt cityW 0 0 = some [] := by decide
    rw [e, Option.some.injEq] at hs0
    exact hs0.symm
  subst he
  have e2 : stackAt cityDup2 0 0 =
      some [⟨blockDupPlaced, 0⟩, ⟨blockDupPlaced, 1⟩] := by decide
  rw [e2, Option.some.injEq] at hs2
  exact absurd hs2 (by decide)

/-- C3, amended with the hypotheses that the placed block's footprint parts
occupy pairwise distinct, existing, buildable tiles at nonnegative
altitudes (all guaranteed for blocks actually placed by the program): if the
block is topmost on every tile its footprint occupies, `remove` returns true,
pops exactly the topmost entry from each occupied tile and leaves every other
cell unchanged, and unplaces the block; otherwise it returns false and
changes nothing (atomic all-or-nothing). -/
theorem C3_remove_dichotomy (city : City) (block : Block)
    (base_col base_row base_altitude : Int) (hrect : Rect city)
    (hcol : block.col = some base_col) (hrow : block.row = some base_row)
    (halt : block.altitude = some base_altitude)
    (hcells : ∀ p ∈ block.blocktype.footprint, ∃ stack,
      stackAt city (p.col + base_col) (p.row + base_row) = some stack)
    (hpos : ∀ p ∈ block.blocktype.footprint, 0 ≤ p.altitude + base_altitude)
    (hdist : PartsDistinct block.blocktype.footprint) :
    (Topmost city block base_col base_row base_altitude →
      ∃ city2, City.remove city block = some (true, city2,
          { block with col := none, row := none, altitude := none }) ∧
        (∀ p ∈ block.blocktype.footprint, ∀ stack,
          stackAt city (p.col + base_col) (p.row + base_row) = some stack →
          stackAt city2 (p.col + base_col) (p.row + base_row) = some stack.dropLast) ∧
        (∀ c r : Int, (∀ p ∈ block.blocktype.footprint,
            ¬(c = p.col + base_col ∧ r = p.row + base_row)) →
          cellAt city2 c r = cellAt city c r)) ∧
    (¬ Topmost city block base_col base_row base_altitude →
      City.remove city block = some (false, city, block)) := by
  constructor
  · intro htop
    have hcells2 : ∀ p ∈ block.blocktype.footprint, ∃ stack,
        stackAtG city.tiles (p.col + base_col) (p.row + base_row) = some stack ∧
        (stack.length : Int) = p.altitude + base_altitude + 1 := by
      intro p hp
      obtain ⟨stack, hs⟩ := hcells p hp
      refine ⟨stack, hs, ?_⟩
      have ht := htop p hp
      rw [show stackAt city (p.col + base_col) (p.row + base_row) = some stack from hs] at ht
      simpa using ht
    obtain ⟨tiles2, hrem, -, -, -, htouch, hframe⟩ :=
      remove_success city block base_col base_row base_altitude hrect hcol hrow halt
        hcells2 hpos hdist
    refine ⟨_, hrem, ?_, ?_⟩
    · intro p hp stack hs
      have hc := htouch p hp stack hs
      show stackAtG tiles2 (p.col + base_col) (p.row + base_row) = some stack.dropLast
      rw [stackAtG, hc]
      rfl
    · intro c r hall
      exact hframe c r hall
  · intro hnot
    have hex : ∃ p ∈ block.blocktype.footprint, ∀ stack,
        stackAtG city.tiles (p.col + base_col) (p.row + base_row) = some stack →
        (stack.length : Int) ≠ p.altitude + base_altitude + 1 := by
      by_contra hno
      apply hnot
      push_neg at hno
      intro p hp
      obtain ⟨stack, hs, hlen⟩ := hno p hp
      rw [show stackAt city (p.col + base_col) (p.row + base_row) = some stack from hs]
      simp [hlen]
    exact remove_fail city block base_col base_row base_altitude hcol hrow halt
      (removeCheck_fail block.blocktype.footprint city.tiles base_col base_row
        base_altitude (fun p hp => hcells p hp) hex)

/-- Witness for C3: removing the placed single-part block from the one-tile
city succeeds, pops its entry, and unplaces it. -/
theorem C3_remove_witness :
    ∃ city2, City.remove cityOne blockWPlaced = some (true, city2,
        { blockWPlaced with col := none, row := none, altitude := none }) ∧
      (∀ p ∈ blockWPlaced.blocktype.footprint, ∀ stack,
        stackAt cityOne (p.col + 0) (p.row + 0) = some stack →
        stackAt city2 (p.col + 0) (p.row + 0) = some stack.dropLast) ∧
      (∀ c r : Int, (∀ p ∈ blockWPlaced.blocktype.footprint,
          ¬(c = p.col + 0 ∧ r = p.row + 0)) →
        cellAt city2 c r = cellAt cityOne c r) :=
  (C3_remove_dichotomy cityOne blockWPlaced 0 0 0 (by decide) (by decide) (by decide)
    (by decide)
    (by
      intro p hp
      have hpe : p = { col := 0, row := 0, altitude := 0 } := by
        simpa [blockWPlaced, blockW] using hp
      subst hpe
      exact ⟨[⟨blockWPlaced, 0⟩], by decide⟩)
    (by
      intro p hp
      have hpe : p = { col := 0, row := 0, altitude := 0 } := by
        simpa [blockWPlaced, blockW] using hp
      subst hpe
      decide)
    (by decide)).1 (by decide)

/-- Counterexample to C3 as stated: on a one-entry stack, the duplicate-part
block `blockDupPlaced` is "topmost" on every (identical) footprint part, yet
`remove` pops the single tile twice — the second `pop()` raises `IndexError`
(modelled `none`) instead of returning true having popped one entry per
occupied tile. -/
theorem C3_counterexample :
    Topmost cityC3 blockDupPlaced 0 0 0 ∧
    blockDupPlaced.col = some 0 ∧ blockDupPlaced.row = some 0 ∧
    blockDupPlaced.altitude = some 0 ∧
    City.remove cityC3 blockDupPlaced = none := by decide

/-- C4, amended with the hypothesis that the footprint parts occupy pairwise
distinct tiles (true of every catalog block type): a valid `add` followed
immediately by `remove` returns true and restores every cell of the grid to
exactly its contents before the `add`. -/
theorem C4_round_trip (city : City) (block : Block) (base_col base_row : Int)
    (astack : List TileBlock) (hrect : Rect city)
    (hanchor : stackAt city base_col base_row = some astack)
    (hvalid : City.valid_drop_spot city base_col base_row (astack.length : Int) block = true)
    (hdist : PartsDistinct block.blocktype.footprint) :
    ∃ city2 block2 city3 block3,
      City.add city base_col base_row block = some (city2, block2) ∧
      City.remove city2 block2 = some (true, city3, block3) ∧
      ∀ c r : Int, cellAt city3 c r = cellAt city c r := by
  obtain ⟨tiles2, hadd, hrect2, -, -, hres⟩ :=
    add_spec city block base_col base_row astack hrect hanchor hvalid hdist
  obtain ⟨hb1, hb2, hb3, hb4, htouch, hframe⟩ := hres
  have hmem_idx : ∀ p ∈ block.blocktype.footprint,
      ∃ idx : Nat, block.blocktype.footprint[idx]? = some p := by
    intro p hp
    obtain ⟨n, hn, he⟩ := List.getElem_of_mem hp
    exact ⟨n, by rw [List.getElem?_eq_getElem hn, he]⟩
  have hcells2 : ∀ p ∈ block.blocktype.footprint, ∃ stack,
      stackAtG tiles2 (p.col + base_col) (p.row + base_row) = some stack ∧
      (stack.length : Int) = p.altitude + (astack.length : Int) + 1 := by
    intro p hp
    obtain ⟨idx, hidx⟩ := hmem_idx p hp
    obtain ⟨stack, hsOld, hlen, hsNew⟩ := htouch idx p hidx
    refine ⟨_, hsNew, ?_⟩
    simp only [List.length_append, List.length_cons, List.length_nil]
    push_cast
    omega
  have hpos2 : ∀ p ∈ block.blocktype.footprint,
      0 ≤ p.altitude + (astack.length : Int) := by
    intro p hp
    obtain ⟨idx, hidx⟩ := hmem_idx p hp
    obtain ⟨stack, hsOld, hlen, -⟩ := htouch idx p hidx
    omega
  obtain ⟨tiles3, hrem, -, -, -, htouch3, hframe3⟩ :=
    remove_success { city with tiles := tiles2 }
      { block with
        col := some base_col
        row := some base_row
        altitude := some (astack.length : Int)
        x := (city.tile_to_screen base_col base_row (astack.length : Int)).1
        y := (city.tile_to_screen base_col base_row (astack.length : Int)).2 }
      base_col base_row (astack.length : Int) hrect2 rfl rfl rfl hcells2 hpos2 hdist
  refine ⟨_, _, _, _, hadd, hrem, ?_⟩
  intro c r
  by_cases hhit : ∀ p ∈ block.blocktype.footprint,
      ¬(c = p.col + base_col ∧ r = p.row + base_row)
  · have h3 : cellAtG tiles3 c r = cellAtG tiles2 c r := hframe3 c r hhit
    have h2 : cellAtG tiles2 c r = cellAtG city.tiles c r := hframe c r hhit
    show cellAtG tiles3 c r = cellAtG city.tiles c r
    rw [h3, h2]
  · push_neg at hhit
    obtain ⟨p, hp, hcr⟩ := hhit
    obtain ⟨rfl, rfl⟩ := hcr
    obtain ⟨idx, hidx⟩ := hmem_idx p hp
    obtain ⟨stack, hsOld, hlen, hsNew⟩ := htouch idx p hidx
    have h3 := htouch3 p hp _ hsNew
    rw [List.dropLast_concat] at h3
    obtain ⟨tileOld, hcellOld, hbOld⟩ := stackAtG_some_elim
      (show stackAtG city.tiles (p.col + base_col) (p.row + base_row) = some stack from hsOld)
    have hteta : tileOld = { blocks := some stack } := by
      cases tileOld
      cases hbOld
      rfl
    show cellAtG tiles3 (p.col + base_col) (p.row + base_row) =
      cellAtG city.tiles (p.col + base_col) (p.row + base_row)
    rw [h3, hcellOld, hteta]

/-- Witness for C4: round-trip of the single-part block on the empty
one-tile city. -/
theorem C4_round_trip_witness :
    ∃ city2 block2 city3 block3,
      City.add cityW 0 0 blockW = some (city2, block2) ∧
      City.remove city2 block2 = some (true, city3, block3) ∧
      ∀ c r : Int, cellAt city3 c r = cellAt cityW c r := by
  have h := C4_round_trip cityW blockW 0 0 [] (by decide) (by decide) (by decide) (by decide)
  simpa using h

/-- Counterexample to C4 as stated: the duplicate-part block passes
`valid_drop_spot`, `add` stacks its two entries on the same tile, and the
immediate `remove` then fails its topmost check (stack length 2, expected 1)
and returns false instead of true. -/
theorem C4_counterexample :
    City.valid_drop_spot cityW 0 0 0 blockDup = true ∧
    stackAt cityW 0 0 = some [] ∧
    City.add cityW 0 0 blockDup = some (cityDup2, blockDupPlaced) ∧
    City.remove cityDup2 blockDupPlaced = some (false, cityDup2, blockDupPlaced) := by
  decide

/-- C5, amended so that every `add` in the sequence is additionally performed
only for blocks whose footprint parts occupy pairwise distinct tiles (as all
catalog block types do; the guard is part of the `Reach` relation): starting
from a loaded city, after any such sequence of adds and removes every
buildable tile's stack is contiguous — each entry's recorded altitude (its
block's base altitude plus its footprint part's altitude offset) equals its
index in the stack, so the occupied altitudes are exactly `[0, height)`. -/
theorem C5_stack_contiguity (c0 c : City) (hrect : Rect c0) (hload : Loaded c0)
    (hreach : Reach c0 c) : InvG c.tiles := by
  have main : InvG c.tiles ∧ Rect c := by
    induction hreach with
    | refl => exact ⟨loaded_invG hload, hrect⟩
    | add_step c0 c1 base_col base_row astack block block2 hr hanchor hvalid hdist
        hadd ih =>
      exact invG_add (ih.2) hanchor hvalid hdist hadd ih.1
    | remove_step c0 c1 res block block2 hr hrem ih =>
      rcases remove_cases hrem with rfl | ⟨locs, tiles2, hpop, rfl⟩
      · exact ih
      · obtain ⟨hinv, hrect2⟩ := popAll_preserves locs hpop
        exact ⟨hinv ih.1, hrect2 ih.2⟩
  exact main.1

/-- Witness for C5: the invariant holds for the loaded one-tile city after
the empty sequence. -/
theorem C5_stack_contiguity_witness : InvG cityW.tiles :=
  C5_stack_contiguity cityW cityW (by decide) (by decide) (Reach.refl cityW)

/-- Counterexample to C5 as stated: a single guarded `add` (the spot was
approved by `valid_drop_spot` at the anchor's stack length) of the
duplicate-part block, starting from a loaded city, leaves a stack whose
second entry records altitude 0 at index 1 — the occupied altitudes are no
longer the contiguous range `[0, height)`. -/
theorem C5_counterexample :
    Loaded cityW ∧ Rect cityW ∧
    stackAt cityW 0 0 = some [] ∧
    City.valid_drop_spot cityW 0 0 (([] : List TileBlock).length : Int) blockDup = true ∧
    City.add cityW 0 0 blockDup = some (cityDup2, blockDupPlaced) ∧
    ¬ InvG cityDup2.tiles := by decide

theorem scoreBody_eq (acc : Int) (ocell : Option Tile) :
    scoreBody acc ocell = acc + scoreTerm ocell := by
  unfold scoreBody scoreTerm
  rcases ocell with - | tile
  · simp
  · dsimp only
    rcases hb : tile.blocks with - | stack
    · simp
    · rcases stack with - | ⟨tb, rest⟩
      · norm_num [pydiv]
      · dsimp only
        rw [if_neg (by simp)]

theorem foldl_scoreBody (l : List (Option Tile)) :
    ∀ acc : Int, l.foldl scoreBody acc = acc + (l.map scoreTerm).sum := by
  induction l with
  | nil => intro acc; simp
  | cons ocell rest ih =>
    intro acc
    rw [List.foldl_cons, ih, scoreBody_eq]
    simp [add_assoc]

theorem foldl_scoreRows (rows : Grid) :
    ∀ acc : Int, rows.foldl (fun acc tileRow => tileRow.foldl scoreBody acc) acc =
      acc + (rows.map (fun tileRow => (tileRow.map scoreTerm).sum)).sum := by
  induction rows with
  | nil => intro acc; simp
  | cons tileRow rest ih =>
    intro acc
    rw [List.foldl_cons, ih, foldl_scoreBody]
    simp [add_assoc]

/-- C6: `score()` equals the sum over all buildable tiles of `h*(h-1)/2`
(`h` the tile's stack length) minus the fixed baseline `base_score`; the
baseline that `__post_init__` captures at construction (when the dataclass
default `base_score = 0` is in effect) is that same sum, so a freshly
constructed city scores 0. -/
theorem C6_score_formula (city : City) :
    city.score = specScoreSum city - city.base_score ∧
    (City.postInit { city with base_score := 0 }).base_score = specScoreSum city ∧
    (City.postInit { city with base_score := 0 }).score = 0 := by
  have hraw : ∀ c : City, c.score = specScoreSum c - c.base_score := by
    intro c
    rw [City.score, foldl_scoreRows, specScoreSum]
    omega
  refine ⟨hraw city, ?_, ?_⟩
  · show ({ city with base_score := 0 } : City).score = specScoreSum city
    rw [hraw]
    show specScoreSum city - 0 = specScoreSum city
    omega
  · rw [hraw]
    show specScoreSum city - ({ city with base_score := 0 } : City).score = 0
    rw [hraw]
    show specScoreSum city - (specScoreSum city - 0) = 0
    omega

/-- Counterexample to C9 as stated: for the game's window origin
`(cx, cy) = (16, 0)` (the `City.load(cx=16, cy=0, ...)` call) and zero
projection offsets, the round trip of tile `(0, 0)` through the altitude-0
projection returns `(15, -1)`, not `(0, 0)` — `screen_to_tile` is not the
exact inverse at the projected corner point. -/
theorem C9_counterexample :
    screen_to_tile 16 0 cityW.x_off cityW.y_off
      (cityW.tile_to_screen 0 0 0).1 (cityW.tile_to_screen 0 0 0).2 = (15, -1) ∧
    ((15 : Int), (-1 : Int)) ≠ ((0 : Int), (0 : Int)) := by decide

/-- C9, amended: the round trip of `tile_to_screen(col, row, 0)` through
`screen_to_tile` yields `(cx + col - 1, cy + row - 1)` — the window-origin
translation plus an off-by-one of exactly one tile per axis, within the ±1
tolerance the spec grants callers; the exact inverse holds at the point
shifted by the sprite-centre offset `(8, 8)`, which returns
`(cx + col, cy + row)`. -/
theorem C9_screen_to_tile_round_trip (city : City) (cx cy col row : Int) :
    screen_to_tile cx cy city.x_off city.y_off
      (city.tile_to_screen col row 0).1 (city.tile_to_screen col row 0).2 =
      (cx + col - 1, cy + row - 1) ∧
    screen_to_tile cx cy city.x_off city.y_off
      ((city.tile_to_screen col row 0).1 + 8) ((city.tile_to_screen col row 0).2 + 8) =
      (cx + col, cy + row) := by
  have e2 : ∀ a : Int, a.fdiv 2 = a / 2 := fun a => Int.fdiv_eq_ediv a (by norm_num)
  have e14 : ∀ a : Int, a.fdiv 14 = a / 14 := fun a => Int.fdiv_eq_ediv a (by norm_num)
  have e16 : ∀ a : Int, a.fdiv 16 = a / 16 := fun a => Int.fdiv_eq_ediv a (by norm_num)
  unfold screen_to_tile City.tile_to_screen City.base_tile_to_screen pydiv stepx stepy
    block_height
  simp only [e2, e14, e16]
  constructor
  · rw [Prod.mk.injEq]
    exact ⟨by omega, by omega⟩
  · rw [Prod.mk.injEq]
    exact ⟨by omega, by omega⟩

theorem dLT_irrefl (a : DVal) : dLT a a = false := by
  rcases a with - | a <;> simp [dLT]

theorem dLT_some_exists {a b : DVal} (h : dLT a b = true) : ∃ v, a = some v := by
  rcases a with - | v
  · simp [dLT] at h
  · exact ⟨v, rfl⟩

theorem dLT_trans {a b c : DVal} (h1 : dLT a b = true) (h2 : dLT b c = true) :
    dLT a c = true := by
  rcases a with - | a <;> rcases b with - | b <;> rcases c with - | c <;>
    simp [dLT] at * <;> omega

theorem dLT_false_trans {a b c : DVal} (h1 : dLT a b = false) (h2 : dLT b c = false) :
    dLT a c = false := by
  rcases a with - | a <;> rcases b with - | b <;> rcases c with - | c <;>
    simp [dLT] at * <;> omega

theorem dLT_mixed {a b c : DVal} (h1 : dLT a b = true) (h2 : dLT a c = false) :
    dLT b c = false := by
  rcases a with - | a <;> rcases b with - | b <;> rcases c with - | c <;>
    simp [dLT] at * <;> omega

theorem dLT_lt_of_ge {a b c : DVal} (h1 : dLT a b = true) (h2 : dLT c b = false) :
    dLT a c = true := by
  rcases a with - | a <;> rcases b with - | b <;> rcases c with - | c <;>
    simp [dLT] at * <;> omega

theorem bestDirStep_eq (m : DMap) (cell : Int × Int)
    (acc : DVal × (Int × Int)) (d : Int × Int) :
    (match dmLookup m (cell.1 + d.1, cell.2 + d.2) with
      | none => acc
      | some dv => if dLT dv acc.1 then (dv, d) else acc) =
    (if dLT (effDist m cell d) acc.1 then (effDist m cell d, d) else acc) := by
  rw [effDist]
  rcases hl : dmLookup m (cell.1 + d.1, cell.2 + d.2) with - | dv
  · simp [dLT]
  · rcases dv with - | v
    · simp [dLT]
    · simp

theorem bestDirFold_inv (f : (Int × Int) → DVal) (l : List (Int × Int)) :
    ∀ (b : DVal) (dir : Int × Int),
      (∀ d ∈ l, dLT (f d)
        (l.foldl (fun acc d => if dLT (f d) acc.1 then (f d, d) else acc) (b, dir)).1
          = false) ∧
      dLT b (l.foldl (fun acc d => if dLT (f d) acc.1 then (f d, d) else acc) (b, dir)).1
        = false ∧
      ((l.foldl (fun acc d => if dLT (f d) acc.1 then (f d, d) else acc) (b, dir) =
          (b, dir) ∧ ∀ d ∈ l, dLT (f d) b = false) ∨
       (∃ v, (l.foldl (fun acc d => if dLT (f d) acc.1 then (f d, d) else acc)
            (b, dir)).1 = some v ∧
         dLT (some v) b = true ∧
         f (l.foldl (fun acc d => if dLT (f d) acc.1 then (f d, d) else acc) (b, dir)).2 =
           some v ∧
         ∃ pre post, l = pre ++
           (l.foldl (fun acc d => if dLT (f d) acc.1 then (f d, d) else acc) (b, dir)).2 ::
             post ∧
           ∀ d ∈ pre, dLT (some v) (f d) = true)) := by
  induction l with
  | nil =>
    intro b dir
    refine ⟨?_, dLT_irrefl b, Or.inl ⟨rfl, ?_⟩⟩
    · intro d hd
      cases hd
    · intro d hd
      cases hd
  | cons d0 rest ih =>
    intro b dir
    rcases h0 : dLT (f d0) b with - | -
    · -- no improvement at the head
      have hstep : (d0 :: rest).foldl
          (fun acc d => if dLT (f d) acc.1 then (f d, d) else acc) (b, dir) =
          rest.foldl (fun acc d => if dLT (f d) acc.1 then (f d, d) else acc) (b, dir) := by
        rw [List.foldl_cons, if_neg (by simp [h0])]
      obtain ⟨hlb, hlbb, hcases⟩ := ih b dir
      rw [hstep]
      refine ⟨?_, hlbb, ?_⟩
      · intro d hd
        rcases List.mem_cons.mp hd with rfl | hd2
        · exact dLT_false_trans h0 hlbb
        · exact hlb d hd2
      · rcases hcases with ⟨heq, hall⟩ | ⟨v, hv, hvb, hfw, pre, post, hsplit, hpre⟩
        · refine Or.inl ⟨heq, ?_⟩
          intro d hd
          rcases List.mem_cons.mp hd with rfl | hd2
          · exact h0
          · exact hall d hd2
        · refine Or.inr ⟨v, hv, hvb, hfw, d0 :: pre, post, ?_, ?_⟩
          · rw [List.cons_append, ← hsplit]
          · intro d hd
            rcases List.mem_cons.mp hd with rfl | hd2
            · exact dLT_lt_of_ge hvb h0
            · exact hpre d hd2
    · -- strict improvement at the head
      obtain ⟨v0, hv0⟩ := dLT_some_exists h0
      have hstep : (d0 :: rest).foldl
          (fun acc d => if dLT (f d) acc.1 then (f d, d) else acc) (b, dir) =
          rest.foldl (fun acc d => if dLT (f d) acc.1 then (f d, d) else acc)
            (f d0, d0) := by
        rw [List.foldl_cons, if_pos (by simpa using h0)]
      obtain ⟨hlb, hlbb, hcases⟩ := ih (f d0) d0
      rw [hstep]
      refine ⟨?_, ?_, ?_⟩
      · intro d hd
        rcases List.mem_cons.mp hd with rfl | hd2
        · exact hlbb
        · exact hlb d hd2
      · exact dLT_mixed h0 hlbb
      · rcases hcases with ⟨heq, hall⟩ | ⟨v, hv, hvb, hfw, pre, post, hsplit, hpre⟩
        · refine Or.inr ⟨v0, ?_, ?_, ?_, [], rest, ?_, ?_⟩
          · rw [heq, ← hv0]
          · rw [← hv0]; exact h0
          · rw [heq, ← hv0]
          · rw [heq]
            rfl
          · intro d hd
            cases hd
        · refine Or.inr ⟨v, hv, ?_, hfw, d0 :: pre, post, ?_, ?_⟩
          · exact dLT_trans hvb h0
          · rw [List.cons_append, ← hsplit]
          · intro d hd
            rcases List.mem_cons.mp hd with rfl | hd2
            · exact hvb
            · exact hpre d hd2

theorem bestDir_eq_fold (m : DMap) (cell : Int × Int) :
    bestDir m cell = (dirOptions.foldl
      (fun acc d => if dLT (effDist m cell d) acc.1 then (effDist m cell d, d) else acc)
      ((none : DVal), ((0 : Int), (0 : Int)))).2 := by
  rw [bestDir]
  congr 1
  apply List.foldl_ext
  intro acc d hd
  exact bestDirStep_eq m cell acc d

theorem pmLookup_map {l : List (Int × Int)} {cell : Int × Int}
    (f : (Int × Int) → (Int × Int)) (h : cell ∈ l) :
    pmLookup (l.map (fun c => (c, f c))) cell = some (f cell) := by
  induction l with
  | nil => cases h
  | cons c0 rest ih =>
    rcases List.mem_cons.mp h with rfl | h2
    · rw [pmLookup, List.map_cons, List.find?_cons_of_pos _ (by simp)]
      rfl
    · by_cases hc : c0 = cell
      · subst hc
        rw [pmLookup, List.map_cons, List.find?_cons_of_pos _ (by simp)]
        rfl
      · rw [pmLookup, List.map_cons, List.find?_cons_of_neg _ (by simpa using hc)]
        exact ih h2

/-- C7, amended: for every cell of the window, the stored direction is the
first option among (0,0), (-1,0), (+1,0), (0,-1), (0,+1) — in that fixed
check order — whose target cell's recorded distance is finite and minimal
(the first strict minimum wins); a cell none of whose five option targets
has a finite recorded distance gets direction (0,0).  (The claim's clause
that every cell recorded as unreachable gets (0,0) is dropped: a blocked
cell adjacent to a reachable cell points at that neighbour.) -/
theorem C7_pathmap_direction (cx cy : Int) (tm : Tilemap) (cell : Int × Int)
    (hcell : cell ∈ windowCells cx cy) :
    ∃ dir, pmLookup (tilemap_to_pathmap cx cy tm) cell = some dir ∧
      ((∀ d ∈ dirOptions, effDist (buildDistance cx cy tm) cell d = none) →
        dir = (0, 0)) ∧
      (∀ d0 ∈ dirOptions, ∀ v0, effDist (buildDistance cx cy tm) cell d0 = some v0 →
        ∃ v, effDist (buildDistance cx cy tm) cell dir = some v ∧
          (∀ d ∈ dirOptions,
            dLT (effDist (buildDistance cx cy tm) cell d) (some v) = false) ∧
          ∃ pre post, dirOptions = pre ++ dir :: post ∧
            ∀ d ∈ pre, dLT (some v) (effDist (buildDistance cx cy tm) cell d) = true) := by
  obtain ⟨hlb, hlbb, hcases⟩ :=
    bestDirFold_inv (effDist (buildDistance cx cy tm) cell) dirOptions none (0, 0)
  refine ⟨bestDir (buildDistance cx cy tm) cell, ?_, ?_, ?_⟩
  · rw [tilemap_to_pathmap]
    exact pmLookup_map _ hcell
  · intro hnone
    rw [bestDir_eq_fold]
    rcases hcases with ⟨heq, -⟩ | ⟨v, -, -, hfw, pre, post, hsplit, -⟩
    · rw [heq]
    · exfalso
      have hmem0 : (dirOptions.foldl (fun acc d =>
          if dLT (effDist (buildDistance cx cy tm) cell d) acc.1 then
            (effDist (buildDistance cx cy tm) cell d, d) else acc)
          ((none : DVal), ((0 : Int), (0 : Int)))).2 ∈
          pre ++ (dirOptions.foldl (fun acc d =>
          if dLT (effDist (buildDistance cx cy tm) cell d) acc.1 then
            (effDist (buildDistance cx cy tm) cell d, d) else acc)
          ((none : DVal), ((0 : Int), (0 : Int)))).2 :: post :=
        List.mem_append.mpr (Or.inr (List.mem_cons_self _ _))
      rw [← hsplit] at hmem0
      have hcontra := (hnone _ hmem0).symm.trans hfw
      cases hcontra
  · intro d0 hd0 v0 hv0
    rcases hcases with ⟨-, hall⟩ | ⟨v, hv, -, hfw, pre, post, hsplit, hpre⟩
    · exfalso
      have hd := hall d0 hd0
      rw [hv0] at hd
      simp [dLT] at hd
    · refine ⟨v, ?_, ?_, pre, post, ?_, hpre⟩
      · rw [bestDir_eq_fold]
        exact hfw
      · intro d hd
        have hl := hlb d hd
        rw [hv] at hl
        exact hl
      · rw [bestDir_eq_fold]
        exact hsplit

theorem dmLookup_append_of_isSome {m : DMap} {k : Int × Int}
    (h : (dmLookup m k).isSome) (m' : DMap) :
    dmLookup (m ++ m') k = dmLookup m k := by
  rw [dmLookup] at h ⊢
  rw [dmLookup, List.find?_append]
  rcases hf : m.find? (fun e => e.1 == k) with - | e
  · rw [hf] at h
    simp at h
  · rw [hf]
    rfl

theorem dmLookup_append_key_isSome (m : DMap) (k : Int × Int) (v : DVal) :
    (dmLookup (m ++ [(k, v)]) k).isSome := by
  rw [dmLookup, List.find?_append]
  rcases hf : m.find? (fun e => e.1 == k) with - | e
  · rw [hf]
    simp [List.find?]
  · rw [hf]
    rfl

theorem initFold_preserves (tm : Tilemap) (l : List (Int × Int)) (m : DMap)
    (k : Int × Int) (h : (dmLookup m k).isSome) :
    (dmLookup (l.foldl (fun m cell =>
      if tm cell = T_GOAL then m ++ [(cell, some 0)]
      else if tm cell = T_BLOCK then m ++ [(cell, none)] else m) m) k).isSome := by
  induction l generalizing m with
  | nil => exact h
  | cons c rest ih =>
    rw [List.foldl_cons]
    apply ih
    by_cases h1 : tm c = T_GOAL
    · rw [if_pos h1, dmLookup_append_of_isSome h]
      exact h
    · rw [if_neg h1]
      by_cases h2 : tm c = T_BLOCK
      · rw [if_pos h2, dmLookup_append_of_isSome h]
        exact h
      · rw [if_neg h2]
        exact h

theorem initFold_total (tm : Tilemap) (l : List (Int × Int)) (m : DMap)
    (h : ∀ c ∈ l, tm c = T_GOAL ∨ tm c = T_BLOCK) :
    ∀ c ∈ l, (dmLookup (l.foldl (fun m cell =>
      if tm cell = T_GOAL then m ++ [(cell, some 0)]
      else if tm cell = T_BLOCK then m ++ [(cell, none)] else m) m) c).isSome := by
  induction l generalizing m with
  | nil => intro c hc; cases hc
  | cons c0 rest ih =>
    intro c hc
    rw [List.foldl_cons]
    rcases List.mem_cons.mp hc with rfl | hc2
    · apply initFold_preserves
      by_cases h1 : tm c = T_GOAL
      · rw [if_pos h1]
        exact dmLookup_append_key_isSome m c (some 0)
      · rcases h c (List.mem_cons_self _ _) with h2 | h2
        · exact absurd h2 h1
        · rw [if_neg h1, if_pos h2]
          exact dmLookup_append_key_isSome m c none
    · exact ih _ (fun d hd => h d (List.mem_cons.mpr (Or.inr hd))) c hc2

theorem initDistance_total (cx cy : Int) (tm : Tilemap)
    (h : ∀ c ∈ windowCells cx cy, tm c = T_GOAL ∨ tm c = T_BLOCK) :
    ∀ c ∈ windowCells cx cy, (dmLookup (initDistance cx cy tm) c).isSome :=
  initFold_total tm (windowCells cx cy) [] h

theorem relaxCell_of_isSome {m : DMap} {cell : Int × Int}
    (h : (dmLookup m cell).isSome) : relaxCell m cell = m := by
  rw [relaxCell, if_pos h]

theorem foldl_relax_id {m : DMap} :
    ∀ l : List (Int × Int), (∀ c ∈ l, (dmLookup m c).isSome) →
      l.foldl relaxCell m = m := by
  intro l
  induction l with
  | nil => intro _; rfl
  | cons c rest ih =>
    intro h
    rw [List.foldl_cons, relaxCell_of_isSome (h c (List.mem_cons_self _ _))]
    exact ih (fun d hd => h d (List.mem_cons.mpr (Or.inr hd)))

theorem sweepDistance_id {cx cy : Int} {m : DMap}
    (h : ∀ c ∈ windowCells cx cy, (dmLookup m c).isSome) :
    sweepDistance cx cy m = m :=
  foldl_relax_id _ h

theorem buildDistance_eq_init {cx cy : Int} {tm : Tilemap}
    (h : ∀ c ∈ windowCells cx cy, (dmLookup (initDistance cx cy tm) c).isSome) :
    buildDistance cx cy tm = initDistance cx cy tm := by
  rw [buildDistance]
  generalize List.range (16 * 16) = l
  induction l with
  | nil => rfl
  | cons n rest ih =>
    rw [List.foldl_cons, sweepDistance_id h]
    exact ih

theorem tmC7_total : ∀ c ∈ windowCells 0 0, tmC7 c = T_GOAL ∨ tmC7 c = T_BLOCK := by
  intro c _
  by_cases h : c = ((0 : Int), (0 : Int))
  · left
    rw [tmC7]
    exact if_pos h
  · right
    rw [tmC7]
    exact if_neg h

theorem buildDistance_tmC7 : buildDistance 0 0 tmC7 = initDistance 0 0 tmC7 :=
  buildDistance_eq_init (initDistance_total 0 0 tmC7 tmC7_total)

set_option maxRecDepth 40000

/-- Counterexample to C7 as stated: on the tilemap whose only goal is cell
`(0, 0)` and whose every other cell is a blocked buildable tile, cell
`(1, 0)` is recorded as unreachable (distance `inf`), yet its stored
direction is `(-1, 0)`, not `(0, 0)`: the direction loop compares the
neighbours' recorded distances with `<` against `inf`, so a blocked cell
adjacent to a reachable cell points at that neighbour. -/
theorem C7_counterexample :
    dmLookup (buildDistance 0 0 tmC7) ((1 : Int), (0 : Int)) = some none ∧
    pmLookup (tilemap_to_pathmap 0 0 tmC7) ((1 : Int), (0 : Int)) = some (-1, 0) ∧
    pmLookup (tilemap_to_pathmap 0 0 tmC7) ((1 : Int), (0 : Int)) ≠ some (0, 0) := by
  have hmem : ((1 : Int), (0 : Int)) ∈ windowCells 0 0 := by decide
  have hpm : pmLookup (tilemap_to_pathmap 0 0 tmC7) ((1 : Int), (0 : Int)) =
      some (bestDir (buildDistance 0 0 tmC7) (1, 0)) := by
    rw [tilemap_to_pathmap]
    exact pmLookup_map _ hmem
  have hbd : bestDir (buildDistance 0 0 tmC7) (1, 0) = (-1, 0) := by
    rw [buildDistance_tmC7]
    decide
  refine ⟨?_, ?_, ?_⟩
  · rw [buildDistance_tmC7]
    decide
  · rw [hpm, hbd]
  · rw [hpm, hbd]
    decide

theorem foldl_flatMap {α β γ : Type} (f : α → List β) (g : γ → β → γ)
    (l : List α) (init : γ) :
    (l.flatMap f).foldl g init = l.foldl (fun acc a => (f a).foldl g acc) init := by
  induction l generalizing init with
  | nil => rfl
  | cons a t ih => rw [List.flatMap_cons, List.foldl_append, List.foldl_cons, ih]

theorem dropCell_eq_foldl (g : Game) (x y : ℚ) (block : Block) (row col : Nat)
    (otile : Option Tile) (st : DropState) :
    dropCell g x y block row col otile st =
      (cellCandidate g x y block row col otile).foldl dropStep st := by
  cases otile with
  | none => rfl
  | some tile =>
    cases hb : tile.blocks with
    | none => simp only [dropCell, cellCandidate, hb, List.foldl_nil]
    | some blocks =>
      simp only [dropCell, cellCandidate, hb]
      by_cases hr : (1600 : ℚ) <
          (((g.city.tile_to_screen col row blocks.length).1 : ℚ) + 8 - x) *
            (((g.city.tile_to_screen col row blocks.length).1 : ℚ) + 8 - x) +
          (((g.city.tile_to_screen col row blocks.length).2 : ℚ) + 8 - y) *
            (((g.city.tile_to_screen col row blocks.length).2 : ℚ) + 8 - y)
      · rw [if_pos hr, if_pos hr, List.foldl_nil]
      · rw [if_neg hr, if_neg hr, List.foldl_cons, List.foldl_nil]
        rfl

theorem cityDropFold_eq_candidates (g : Game) (x y : ℚ) (block : Block) :
    cityDropFold g x y block = (cityCandidates g x y block).foldl dropStep
      { closest := none, closest_dist2 := 1600, closest_is_valid := false } := by
  rw [cityDropFold, cityCandidates, foldl_flatMap]
  apply List.foldl_ext
  intro st rowPair _
  rw [foldl_flatMap]
  apply List.foldl_ext
  intro st2 colPair _
  exact dropCell_eq_foldl g x y block rowPair.1 colPair.1 colPair.2 st2

theorem cellCandidate_le_radius {g : Game} {x y : ℚ} {block : Block}
    {row col : Nat} {otile : Option Tile} {c : DropSpot × ℚ}
    (h : c ∈ cellCandidate g x y block row col otile) : c.2 ≤ 1600 := by
  cases otile with
  | none => cases h
  | some tile =>
    cases hb : tile.blocks with
    | none =>
      rw [cellCandidate, hb] at h
      cases h
    | some blocks =>
      rw [cellCandidate, hb] at h
      dsimp only at h
      split at h
      · cases h
      · next hr =>
        rcases List.mem_singleton.mp h with rfl
        exact le_of_not_lt hr

theorem cityCandidates_le_radius {g : Game} {x y : ℚ} {block : Block}
    {c : DropSpot × ℚ} (h : c ∈ cityCandidates g x y block) : c.2 ≤ 1600 := by
  rw [cityCandidates] at h
  rcases List.mem_flatMap.mp h with ⟨rowPair, -, h2⟩
  rcases List.mem_flatMap.mp h2 with ⟨colPair, -, h3⟩
  exact cellCandidate_le_radius h3

theorem dropStep_flag (st : DropState) (c : DropSpot × ℚ) :
    (dropStep st c).closest_is_valid = (st.closest_is_valid || c.1.valid) := by
  rw [dropStep]
  split
  · next h =>
    cases hf : st.closest_is_valid with
    | false => simp
    | true =>
      rw [hf] at h
      simp only [Bool.not_true, Bool.and_false, Bool.false_or, Bool.and_eq_true,
        decide_eq_true_eq, beq_iff_eq] at h
      simp [h.2]
  · next h =>
    cases hv : c.1.valid with
    | false => simp
    | true =>
      cases hf : st.closest_is_valid with
      | false =>
        rw [hv, hf] at h
        simp at h
      | true => simp

theorem dropStep_cases (st : DropState) (c : DropSpot × ℚ) :
    (dropStep st c = { closest := some c.1, closest_dist2 := c.2, closest_is_valid := c.1.valid } ∧
      ((c.1.valid = true ∧ st.closest_is_valid = false) ∨
        (c.2 ≤ st.closest_dist2 ∧ c.1.valid = st.closest_is_valid))) ∨
    (dropStep st c = st ∧
      ¬(c.1.valid = true ∧ st.closest_is_valid = false) ∧
      ¬(c.2 ≤ st.closest_dist2 ∧ c.1.valid = st.closest_is_valid)) := by
  rw [dropStep]
  split
  · next h =>
    left
    refine ⟨rfl, ?_⟩
    simp only [Bool.or_eq_true, Bool.and_eq_true, Bool.not_eq_true',
      decide_eq_true_eq, beq_iff_eq] at h
    exact h
  · next h =>
    right
    refine ⟨rfl, ?_, ?_⟩ <;>
    · intro hc
      apply h
      simp only [Bool.or_eq_true, Bool.and_eq_true, Bool.not_eq_true',
        decide_eq_true_eq, beq_iff_eq]
      first
      | exact Or.inl hc
      | exact Or.inr hc

theorem dropFoldl_inv : ∀ (cs : List (DropSpot × ℚ)) (st0 st : DropState),
    cs.foldl dropStep st0 = st →
    (st.closest_is_valid = (st0.closest_is_valid || cs.any (fun c => c.1.valid))) ∧
    (st.closest_is_valid = st0.closest_is_valid →
      st.closest_dist2 ≤ st0.closest_dist2 ∧
      ((st.closest = st0.closest ∧ st.closest_dist2 = st0.closest_dist2) ∨
        ∃ c ∈ cs, c.1.valid = st.closest_is_valid ∧ st.closest = some c.1 ∧
          st.closest_dist2 = c.2) ∧
      (∀ c ∈ cs, c.1.valid = st.closest_is_valid → st.closest_dist2 ≤ c.2)) ∧
    (st.closest_is_valid = true → st0.closest_is_valid = false →
      (∃ c ∈ cs, c.1.valid = true ∧ st.closest = some c.1 ∧ st.closest_dist2 = c.2) ∧
      (∀ c ∈ cs, c.1.valid = true → st.closest_dist2 ≤ c.2)) ∧
    (st.closest = none →
      st0.closest = none ∧ st = st0 ∧ ∀ c ∈ cs, dropStep st0 c = st0) := by
  intro cs
  induction cs with
  | nil =>
    intro st0 st hst
    rw [List.foldl_nil] at hst
    subst hst
    refine ⟨by simp, ?_, ?_, ?_⟩
    · intro _
      exact ⟨le_refl _, Or.inl ⟨rfl, rfl⟩, fun c hc => absurd hc (List.not_mem_nil c)⟩
    · intro h1 h0
      rw [h1] at h0
      cases h0
    · intro h
      exact ⟨h, rfl, fun c hc => absurd hc (List.not_mem_nil c)⟩
  | cons c0 t ih =>
    intro st0 st hst
    rw [List.foldl_cons] at hst
    obtain ⟨ihA, ihB, ihC, ihD⟩ := ih (dropStep st0 c0) st hst
    have hflag1 : (dropStep st0 c0).closest_is_valid =
        (st0.closest_is_valid || c0.1.valid) := dropStep_flag st0 c0
    have hany : (c0 :: t).any (fun c => c.1.valid) =
        (c0.1.valid || t.any (fun c => c.1.valid)) := List.any_cons
    refine ⟨?_, ?_, ?_, ?_⟩
    · rw [ihA, hflag1, hany, Bool.or_assoc]
    · intro hB
      have hstep := dropStep_cases st0 c0
      cases hf0 : st0.closest_is_valid with
      | true =>
        have hf1 : (dropStep st0 c0).closest_is_valid = true := by
          rw [hflag1, hf0, Bool.true_or]
        have hBf : st.closest_is_valid = (dropStep st0 c0).closest_is_valid := by
          rw [hB, hf0, hf1]
        obtain ⟨hb1, hb2, hb3⟩ := ihB hBf
        rcases hstep with ⟨heq, hcond⟩ | ⟨heq, hn1, hn2⟩
        · have hc0v : c0.1.valid = true := by
            have := hf1
            rw [heq] at this
            exact this
          have hle0 : c0.2 ≤ st0.closest_dist2 := by
            rcases hcond with ⟨-, h0⟩ | ⟨h0, -⟩
            · rw [hf0] at h0
              cases h0
            · exact h0
          have hd1 : (dropStep st0 c0).closest_dist2 = c0.2 := by rw [heq]
          refine ⟨le_trans hb1 (le_of_eq (hd1.trans rfl)) |>.trans hle0, ?_, ?_⟩
          · rcases hb2 with ⟨hc, hd⟩ | ⟨c, hc, hcv, hcc, hcd⟩
            · refine Or.inr ⟨c0, List.mem_cons_self _ _, ?_, ?_, ?_⟩
              · rw [hc0v, hB, hf0]
              · rw [hc, heq]
              · rw [hd, hd1]
            · exact Or.inr ⟨c, List.mem_cons.mpr (Or.inr hc), hcv, hcc, hcd⟩
          · intro c hc hcv
            rcases List.mem_cons.mp hc with rfl | hct
            · exact le_trans hb1 (le_of_eq hd1)
            · exact hb3 c hct hcv
        · rw [heq] at hb1 hb2
          refine ⟨hb1, ?_, ?_⟩
          · rcases hb2 with ⟨hc, hd⟩ | ⟨c, hc, hcv, hcc, hcd⟩
            · exact Or.inl ⟨hc, hd⟩
            · exact Or.inr ⟨c, List.mem_cons.mpr (Or.inr hc), hcv, hcc, hcd⟩
          · intro c hc hcv
            rcases List.mem_cons.mp hc with rfl | hct
            · have hlt : st0.closest_dist2 < c.2 := by
                rcases lt_or_le st0.closest_dist2 c.2 with h | h
                · exact h
                · exact absurd ⟨h, by rw [hcv, hB, hf0]⟩ hn2
              exact le_of_lt (lt_of_le_of_lt hb1 hlt)
            · exact hb3 c hct hcv
      | false =>
        have hsf : st.closest_is_valid = false := by rw [hB, hf0]
        have hf1 : (dropStep st0 c0).closest_is_valid = false := by
          rcases h1 : (dropStep st0 c0).closest_is_valid with - | -
          · rfl
          · have := ihA
            rw [h1, Bool.true_or, hsf] at this
            cases this
        have hc0v : c0.1.valid = false := by
          have := hflag1
          rw [hf1, hf0, Bool.false_or] at this
          exact this.symm
        have hBf : st.closest_is_valid = (dropStep st0 c0).closest_is_valid := by
          rw [hsf, hf1]
        obtain ⟨hb1, hb2, hb3⟩ := ihB hBf
        rcases hstep with ⟨heq, hcond⟩ | ⟨heq, hn1, hn2⟩
        · have hle0 : c0.2 ≤ st0.closest_dist2 := by
            rcases hcond with ⟨h0, -⟩ | ⟨h0, -⟩
            · rw [hc0v] at h0
              cases h0
            · exact h0
          have hd1 : (dropStep st0 c0).closest_dist2 = c0.2 := by rw [heq]
          refine ⟨le_trans (le_trans hb1 (le_of_eq hd1)) hle0, ?_, ?_⟩
          · rcases hb2 with ⟨hc, hd⟩ | ⟨c, hc, hcv, hcc, hcd⟩
            · refine Or.inr ⟨c0, List.mem_cons_self _ _, ?_, ?_, ?_⟩
              · rw [hc0v, hsf]
              · rw [hc, heq]
              · rw [hd, hd1]
            · exact Or.inr ⟨c, List.mem_cons.mpr (Or.inr hc), hcv, hcc, hcd⟩
          · intro c hc hcv
            rcases List.mem_cons.mp hc with rfl | hct
            · exact le_trans hb1 (le_of_eq hd1)
            · exact hb3 c hct hcv
        · rw [heq] at hb1 hb2
          refine ⟨hb1, ?_, ?_⟩
          · rcases hb2 with ⟨hc, hd⟩ | ⟨c, hc, hcv, hcc, hcd⟩
            · exact Or.inl ⟨hc, hd⟩
            · exact Or.inr ⟨c, List.mem_cons.mpr (Or.inr hc), hcv, hcc, hcd⟩
          · intro c hc hcv
            rcases List.mem_cons.mp hc with rfl | hct
            · have hlt : st0.closest_dist2 < c.2 := by
                rcases lt_or_le st0.closest_dist2 c.2 with h | h
                · exact h
                · exact absurd ⟨h, by rw [hcv, hsf, hf0]⟩ hn2
              exact le_of_lt (lt_of_le_of_lt hb1 hlt)
            · exact hb3 c hct hcv
    · intro hT h0
      have hstep := dropStep_cases st0 c0
      cases hf1 : (dropStep st0 c0).closest_is_valid with
      | true =>
        have hc0v : c0.1.valid = true := by
          have := hflag1
          rw [hf1, h0, Bool.false_or] at this
          exact this.symm
        have heq : dropStep st0 c0 = { closest := some c0.1, closest_dist2 := c0.2, closest_is_valid := c0.1.valid } := by
          rcases hstep with ⟨heq, -⟩ | ⟨heq, -, -⟩
          · exact heq
          · rw [heq] at hf1
            rw [hf1] at h0
            cases h0
        have hBf : st.closest_is_valid = (dropStep st0 c0).closest_is_valid := by
          rw [hT, hf1]
        obtain ⟨hb1, hb2, hb3⟩ := ihB hBf
        have hd1 : (dropStep st0 c0).closest_dist2 = c0.2 := by rw [heq]
        refine ⟨?_, ?_⟩
        · rcases hb2 with ⟨hc, hd⟩ | ⟨c, hc, hcv, hcc, hcd⟩
          · refine ⟨c0, List.mem_cons_self _ _, hc0v, ?_, ?_⟩
            · rw [hc, heq]
            · rw [hd, hd1]
          · refine ⟨c, List.mem_cons.mpr (Or.inr hc), ?_, hcc, hcd⟩
            rw [hcv, hT]
        · intro c hc hcv
          rcases List.mem_cons.mp hc with rfl | hct
          · exact le_trans hb1 (le_of_eq hd1)
          · exact hb3 c hct (by rw [hcv, hT])
      | false =>
        obtain ⟨⟨c, hc, hcv, hcc, hcd⟩, hmin⟩ := ihC hT hf1
        have hc0v : c0.1.valid = false := by
          have := hflag1
          rw [hf1, h0, Bool.false_or] at this
          exact this.symm
        refine ⟨⟨c, List.mem_cons.mpr (Or.inr hc), hcv, hcc, hcd⟩, ?_⟩
        intro c2 hc2 hc2v
        rcases List.mem_cons.mp hc2 with rfl | hct
        · rw [hc0v] at hc2v
          cases hc2v
        · exact hmin c2 hct hc2v
    · intro hnone
      obtain ⟨h1, h2, h3⟩ := ihD hnone
      have hstep := dropStep_cases st0 c0
      rcases hstep with ⟨heq, -⟩ | ⟨heq, -, -⟩
      · rw [heq] at h1
        cases h1
      · rw [heq] at h1 h2 h3
        refine ⟨h1, h2, ?_⟩
        intro c hc
        rcases List.mem_cons.mp hc with rfl | hct
        · exact heq
        · exact h3 c hct

/-- C8, amended: the selection policy of `closest_drop_spot`.  Within the
city loop the original policy holds: the chosen candidate is within the
40-unit radius, a valid candidate always outranks an invalid one (the final
validity flag is true exactly when some within-radius candidate is valid),
and among candidates of the final validity the chosen one's distance is
minimal.  The staging return candidate, however, is compared purely by
distance: it replaces the city choice exactly when it is strictly nearer
than the chosen city candidate (regardless of either one's validity), so an
invalid city candidate can win against the always-valid staging return
slot. -/
theorem C8_drop_selection (g : Game) (x y : ℚ) (block : Block) :
    ((cityDropFold g x y block).closest_is_valid =
      (cityCandidates g x y block).any (fun c => c.1.valid)) ∧
    ((cityDropFold g x y block).closest = none → cityCandidates g x y block = []) ∧
    (∀ s, (cityDropFold g x y block).closest = some s →
      ∃ d, (s, d) ∈ cityCandidates g x y block ∧ d ≤ 1600 ∧
        s.valid = (cityDropFold g x y block).closest_is_valid ∧
        (cityDropFold g x y block).closest_dist2 = d ∧
        ∀ c ∈ cityCandidates g x y block, c.1.valid = s.valid → d ≤ c.2) ∧
    (closest_drop_spot g x y block =
      match stagingCandidate g x y with
      | none => (cityDropFold g x y block).closest
      | some q =>
        if q.1 < (cityDropFold g x y block).closest_dist2 then
          some (DropSpot.newArea true q.2.1 q.2.2)
        else (cityDropFold g x y block).closest) := by
  obtain ⟨hA, hB, hC, hD⟩ := dropFoldl_inv (cityCandidates g x y block)
    { closest := none, closest_dist2 := 1600, closest_is_valid := false }
    (cityDropFold g x y block) (cityDropFold_eq_candidates g x y block).symm
  refine ⟨?_, ?_, ?_, ?_⟩
  · rw [hA]
    exact Bool.false_or _
  · intro hnone
    obtain ⟨-, -, hrej⟩ := hD hnone
    cases hcs : cityCandidates g x y block with
    | nil => rfl
    | cons c t =>
      exfalso
      have hc : c ∈ cityCandidates g x y block := by
        rw [hcs]
        exact List.mem_cons_self _ _
      have hcr := hrej c hc
      rcases dropStep_cases { closest := none, closest_dist2 := 1600, closest_is_valid := false } c with ⟨heq, -⟩ | ⟨-, hn1, hn2⟩
      · rw [heq] at hcr
        have := congrArg DropState.closest hcr
        simp at this
      · cases hv : c.1.valid with
        | true => exact hn1 ⟨hv, rfl⟩
        | false => exact hn2 ⟨cityCandidates_le_radius hc, hv⟩
  · intro s hs
    cases hfl : (cityDropFold g x y block).closest_is_valid with
    | false =>
      obtain ⟨hb1, hb2, hb3⟩ := hB (by rw [hfl])
      rcases hb2 with ⟨hc, -⟩ | ⟨c, hc, hcv, hcc, hcd⟩
      · rw [hs] at hc
        cases hc
      · have hsc : s = c.1 := by
          rw [hs] at hcc
          exact (Option.some.injEq _ _ ▸ hcc :)
        refine ⟨c.2, ?_, cityCandidates_le_radius hc, ?_, ?_, ?_⟩
        · rw [hsc]
          exact hc
        · rw [hsc, hcv]
          exact hfl
        · exact hcd
        · intro c2 hc2 hc2v
          rw [← hcd]
          exact hb3 c2 hc2 (by rw [hc2v, hsc, hcv])
    | true =>
      obtain ⟨⟨c, hc, hcv, hcc, hcd⟩, hmin⟩ := hC hfl rfl
      have hsc : s = c.1 := by
        rw [hs] at hcc
        exact (Option.some.injEq _ _ ▸ hcc :)
      refine ⟨c.2, ?_, cityCandidates_le_radius hc, ?_, ?_, ?_⟩
      · rw [hsc]
        exact hc
      · rw [hsc, hcv]
      · exact hcd
      · intro c2 hc2 hc2v
        rw [← hcd]
        exact hmin c2 hc2 (by rw [hc2v, hsc, hcv])
  · cases hna : g.new_block_area with
    | none => simp only [closest_drop_spot, stagingCandidate, hna]
    | some nba =>
      cases hci : nba.carried_idx with
      | none => simp only [closest_drop_spot, stagingCandidate, hna, hci]
      | some idx => simp only [closest_drop_spot, stagingCandidate, hna, hci]

/-- Counterexample to C8 as stated: on a one-tile city whose single (empty,
invalid for the carried two-part block) drop spot coincides with the query
point, with the carried block taken from staging slot 0 whose return
candidate sits at squared distance 61 — well inside the 40-unit radius —
`closest_drop_spot` returns the invalid city spot: the staging candidate,
which the claim says always counts as valid and so should outrank every
invalid candidate, is only accepted when strictly nearer than the current
best distance. -/
theorem C8_counterexample :
    closest_drop_spot gameC8 68 48 blockC8 = some (DropSpot.city false 0 0 0) ∧
    stagingCandidate gameC8 68 48 = some (61, 58, 37) ∧
    (61 : ℚ) ≤ 1600 := by
  have ht : gameC8.city.tile_to_screen 0 0 0 = (60, 40) := by decide
  have hv : gameC8.city.valid_drop_spot 0 0 0 blockC8 = false := by decide
  have hp1 : pydiv NewBlockArea.block_width 2 = 16 := by decide
  have hp2 : pydiv NewBlockArea.height 2 = 16 := by decide
  have hst : cityDropFold gameC8 68 48 blockC8 =
      { closest := some (DropSpot.city false 0 0 0), closest_dist2 := 0
        closest_is_valid := false } := by
    show dropCell gameC8 68 48 blockC8 0 0 (some { blocks := some [] })
      { closest := none, closest_dist2 := 1600, closest_is_valid := false } = _
    simp only [dropCell]
    norm_num [ht, hv]
  refine ⟨?_, ?_, by norm_num⟩
  · show (match gameC8.new_block_area with
      | none => (cityDropFold gameC8 68 48 blockC8).closest
      | some nba =>
        match nba.carried_idx with
        | none => (cityDropFold gameC8 68 48 blockC8).closest
        | some idx =>
          let b := NewBlockArea.coords_for_idx idx gameC8.camera_altitude true
          let dx := b.1 - 68
          let dy := b.2 - 48
          let dist2 := dx * dx + dy * dy
          if dist2 < (cityDropFold gameC8 68 48 blockC8).closest_dist2 then
            some (DropSpot.newArea true nba.carried_src_x nba.carried_src_y)
          else (cityDropFold gameC8 68 48 blockC8).closest) =
      some (DropSpot.city false 0 0 0)
    show (let b := NewBlockArea.coords_for_idx 0 gameC8.camera_altitude true
      let dx := b.1 - 68
      let dy := b.2 - 48
      let dist2 := dx * dx + dy * dy
      if dist2 < (cityDropFold gameC8 68 48 blockC8).closest_dist2 then
        some (DropSpot.newArea true 58 37)
      else (cityDropFold gameC8 68 48 blockC8).closest) =
      some (DropSpot.city false 0 0 0)
    rw [hst]
    norm_num [NewBlockArea.coords_for_idx, NewBlockArea.x_origin,
      NewBlockArea.y_origin, NewBlockArea.border, hp1, hp2, gameC8]
  · show (let b := NewBlockArea.coords_for_idx 0 gameC8.camera_altitude true
      some ((b.1 - 68) * (b.1 - 68) + (b.2 - 48) * (b.2 - 48),
        ((58 : Int), (37 : Int)))) = some ((61 : ℚ), (58 : Int), (37 : Int))
    norm_num [NewBlockArea.coords_for_idx, NewBlockArea.x_origin,
      NewBlockArea.y_origin, NewBlockArea.border, hp1, hp2, gameC8]

theorem foldl_id_of {α σ : Type} (f : σ → α → σ) (l : List α) (s : σ)
    (h : ∀ a ∈ l, f s a = s) : l.foldl f s = s := by
  induction l with
  | nil => rfl
  | cons a t ih =>
    rw [List.foldl_cons, h a (List.mem_cons_self _ _)]
    exact ih (fun a2 ha => h a2 (List.mem_cons.mpr (Or.inr ha)))

theorem pickCell_far {g : Game} {x y : ℚ} {row col : Nat} {otile : Option Tile}
    {st : PickState}
    (h : ∀ d ∈ pickCellDists g x y row col otile, st.closest_dist2 < d) :
    pickCell g x y row col otile st = st := by
  cases otile with
  | none => rfl
  | some tile =>
    cases hb : tile.blocks with
    | none => simp only [pickCell, hb]
    | some bs =>
      cases bs with
      | nil => simp only [pickCell, hb]
      | cons tb0 tbs =>
        have hd := h _ (by
          rw [pickCellDists, hb]
          exact List.mem_singleton.mpr rfl)
        simp only [pickCell, hb]
        rw [if_neg (not_le.mpr hd)]

theorem pickCityFold_id {g : Game} {x y : ℚ}
    (h : ∀ d ∈ pickupCityDists g x y, (1600 : ℚ) < d) :
    pickCityFold g x y =
      { closest := none, closest_is_new := none, closest_dist2 := 1600 } := by
  rw [pickCityFold]
  apply foldl_id_of
  intro rowPair hrow
  apply foldl_id_of
  intro colPair hcol
  apply pickCell_far
  intro d hd
  exact h d (List.mem_flatMap.mpr ⟨rowPair, hrow,
    List.mem_flatMap.mpr ⟨colPair, hcol, hd⟩⟩)

theorem pickStaging_id {nba : NewBlockArea} {x y : ℚ} {st : PickState}
    (hslots : ∀ ob ∈ nba.blocks, ob.isSome)
    (hfar : ∀ d ∈ pickupStagingDists nba x y, st.closest_dist2 < d) :
    pickStaging nba x y st = some st := by
  rw [pickStaging]
  apply foldl_id_of
  intro ob hob
  cases ob with
  | none =>
    have := hslots none hob
    simp at this
  | some b =>
    have hd := hfar _ (by
      rw [pickupStagingDists]
      exact List.mem_flatMap.mpr ⟨some b, hob, List.mem_singleton.mpr rfl⟩)
    dsimp only
    rw [if_neg (not_le.mpr hd)]

/-- C10: when no pickup candidate lies within the 40-unit radius — no
non-empty city stack and no populated staging slot closer than the radius —
and every staging slot is populated (the declared element type of the slot
list), `closest_pickup_spot` returns the pair `(None, None)` rather than
failing.  The read-only part of the claim holds by construction of the
translation: `valid_drop_spot`, `closest_pickup_spot` and
`closest_drop_spot` only read the game state. -/
theorem C10_pickup_no_candidate (g : Game) (x y : ℚ)
    (hcity : ∀ d ∈ pickupCityDists g x y, (1600 : ℚ) < d)
    (harea : PickupStagingFar g x y) :
    closest_pickup_spot g x y = some (none, none) := by
  have hfold := pickCityFold_id hcity
  rw [closest_pickup_spot, hfold]
  cases hna : g.new_block_area with
  | none => rfl
  | some nba =>
    rw [PickupStagingFar, hna] at harea
    obtain ⟨hslots, hfar⟩ := harea
    have hstag : pickStaging nba x y
        { closest := none, closest_is_new := none, closest_dist2 := 1600 } =
        some { closest := none, closest_is_new := none, closest_dist2 := 1600 } :=
      pickStaging_id hslots hfar
    dsimp only
    rw [hstag]

/-- Witness for the C10 theorem on the candidate-free game `gameC10`. -/
theorem C10_pickup_witness : closest_pickup_spot gameC10 0 0 = some (none, none) :=
  C10_pickup_no_candidate gameC10 0 0
    (fun d hd => absurd hd (List.not_mem_nil d)) trivial

/-- Witness for the amended C7 theorem at the concrete window cell `(1, 0)`
of the single-goal tilemap. -/
theorem C7_pathmap_direction_witness :
    ((1 : Int), (0 : Int)) ∈ windowCells 0 0 ∧
    (∃ dir, pmLookup (tilemap_to_pathmap 0 0 tmC7) (1, 0) = some dir ∧
      ((∀ d ∈ dirOptions, effDist (buildDistance 0 0 tmC7) (1, 0) d = none) →
        dir = (0, 0)) ∧
      (∀ d0 ∈ dirOptions, ∀ v0, effDist (buildDistance 0 0 tmC7) (1, 0) d0 = some v0 →
        ∃ v, effDist (buildDistance 0 0 tmC7) (1, 0) dir = some v ∧
          (∀ d ∈ dirOptions,
            dLT (effDist (buildDistance 0 0 tmC7) (1, 0) d) (some v) = false) ∧
          ∃ pre post, dirOptions = pre ++ dir :: post ∧
            ∀ d ∈ pre, dLT (some v) (effDist (buildDistance 0 0 tmC7) (1, 0) d) = true)) :=
  ⟨by decide, C7_pathmap_direction 0 0 tmC7 (1, 0) (by decide)⟩

end PW
